import Mathlib

/-!
Shallow embedding of the expense-management core:
the approval-rule engine (`src/services/ApprovalRuleEngine.ts`),
the approval-flow state machine (`src/services/ApprovalFlowService.ts`)
and the expense lifecycle manager (`src/services/ExpenseService.ts`).

Modelling conventions:
* TypeScript `Date` values are modelled as a `Nat` tick supplied by the caller
  (`now`); within one call the source takes several `new Date()` readings that
  we collapse into the single tick, since no verified property depends on the
  sub-call ordering of timestamps.
* JS `Map` objects become insertion-ordered lists with unique keys; `Map.set`
  replaces the entry in place when the key exists and appends otherwise.
* Methods that `throw` become functions returning `Except`/a result paired with
  the post-call state; every `throw` in the source happens before the first
  field assignment of the same method, except where noted (see `submitExpense`).
* `Array.prototype.sort` with comparator `(a, b) => b.priority - a.priority` is
  a stable descending sort (ES2019); it is modelled by the stable insertion
  sort `sortByPriority`.
-/

inductive ExpenseStatus where
  | DRAFT
  | PENDING
  | APPROVED
  | REJECTED
  | CANCELLED
deriving DecidableEq, Repr

inductive FlowStatus where
  | PENDING
  | APPROVED
  | REJECTED
deriving DecidableEq, Repr

inductive StepStatus where
  | PENDING
  | APPROVED
  | REJECTED
  | SKIPPED
deriving DecidableEq, Repr

inductive ApprovalAction where
  | APPROVED
  | REJECTED
deriving DecidableEq, Repr

/-- Record of a single approval action on an expense (`models/Expense.ts`). -/
structure ApprovalRecord where
  approverId : String
  approverName : String
  approverLevel : Nat
  action : ApprovalAction
  timestamp : Nat
  comments : Option String
deriving DecidableEq, Repr

/-- Expense model (`models/Expense.ts`); `category` is one of the string values
of the `ExpenseCategory` enum. -/
structure Expense where
  id : String
  employeeId : String
  employeeName : String
  amount : Int
  currency : String
  category : String
  description : String
  date : Nat
  status : ExpenseStatus
  submittedAt : Option Nat := none
  approvalHistory : List ApprovalRecord
  attachments : List String := []
deriving DecidableEq, Repr

inductive CondType where
  | AMOUNT
  | CATEGORY
  | DEPARTMENT
  | EMPLOYEE_LEVEL
deriving DecidableEq, Repr

inductive CondOp where
  | EQUALS
  | GREATER_THAN
  | LESS_THAN
  | GREATER_THAN_OR_EQUAL
  | LESS_THAN_OR_EQUAL
  | IN
deriving DecidableEq, Repr

/-- The TS condition `value` field is `string | number | string[]`. -/
inductive CondValue where
  | num (n : Int)
  | str (s : String)
  | strList (l : List String)
deriving DecidableEq, Repr

/-- Condition of an approval rule (`models/ApprovalRule.ts`). -/
structure ApprovalCondition where
  type : CondType
  operator : CondOp
  value : CondValue
deriving DecidableEq, Repr

/-- Single level in the approval hierarchy (`models/ApprovalRule.ts`). The
optional auto-approve fields are carried but never read by the services. -/
structure ApprovalLevel where
  level : Nat
  approverRoles : List String
  requiredApprovers : Nat
  autoApprove : Option Bool := none
  autoApproveThreshold : Option Int := none
deriving DecidableEq, Repr

/-- Approval rule (`models/ApprovalRule.ts`). -/
structure ApprovalRule where
  id : String
  name : String
  description : String
  conditions : List ApprovalCondition
  approvalLevels : List ApprovalLevel
  priority : Int
  active : Bool
deriving DecidableEq, Repr

namespace ApprovalRuleEngine

/-- `evaluateAmountCondition` of `ApprovalRuleEngine.ts`. The source casts
`condition.value as number`; we model a non-numeric value in a numeric
comparison as not matching (the rule schema always supplies a number here). -/
def evaluateAmountCondition (condition : ApprovalCondition) (amount : Int) : Bool :=
  match condition.value with
  | CondValue.num threshold =>
    match condition.operator with
    | CondOp.EQUALS => amount == threshold
    | CondOp.GREATER_THAN => decide (amount > threshold)
    | CondOp.LESS_THAN => decide (amount < threshold)
    | CondOp.GREATER_THAN_OR_EQUAL => decide (amount ≥ threshold)
    | CondOp.LESS_THAN_OR_EQUAL => decide (amount ≤ threshold)
    | CondOp.IN => false
  | _ => false

/-- `evaluateCategoryCondition` of `ApprovalRuleEngine.ts`. `EQUALS` compares
the category string against a string value (strict equality in the source is
false on any other value shape); `IN` is list membership. -/
def evaluateCategoryCondition (condition : ApprovalCondition) (category : String) : Bool :=
  match condition.operator with
  | CondOp.EQUALS =>
    match condition.value with
    | CondValue.str s => category == s
    | _ => false
  | CondOp.IN =>
    match condition.value with
    | CondValue.strList allowedCategories => allowedCategories.contains category
    | _ => false
  | _ => false

/-- `evaluateCondition` of `ApprovalRuleEngine.ts`: `DEPARTMENT` and
`EMPLOYEE_LEVEL` conditions are placeholders that always hold. -/
def evaluateCondition (condition : ApprovalCondition) (expense : Expense) : Bool :=
  match condition.type with
  | CondType.AMOUNT => evaluateAmountCondition condition expense.amount
  | CondType.CATEGORY => evaluateCategoryCondition condition expense.category
  | CondType.DEPARTMENT => true
  | CondType.EMPLOYEE_LEVEL => true

/-- `evaluateRule`: all conditions must be met for a rule to match. -/
def evaluateRule (rule : ApprovalRule) (expense : Expense) : Bool :=
  rule.conditions.all (fun condition => evaluateCondition condition expense)

/-- Insertion step of the stable descending sort: the new rule is placed after
every already-present rule of strictly higher priority and before the first
rule of lower-or-equal priority. -/
def insertByPriority (r : ApprovalRule) : List ApprovalRule → List ApprovalRule
  | [] => [r]
  | x :: xs =>
    if x.priority > r.priority then x :: insertByPriority r xs
    else r :: x :: xs

/-- Stable sort descending by priority, modelling
`[...rules].sort((a, b) => b.priority - a.priority)`. -/
def sortByPriority (rules : List ApprovalRule) : List ApprovalRule :=
  rules.foldr insertByPriority []

/-- The engine's constructor: the private `rules` field holds the input rules
sorted by priority, highest first. -/
def constructorRules (rules : List ApprovalRule) : List ApprovalRule :=
  sortByPriority rules

/-- `findMatchingRule`: filter to active rules, return the first whose
conditions all evaluate true; `rules` is the engine's (sorted) field. -/
def findMatchingRule (rules : List ApprovalRule) (expense : Expense) : Option ApprovalRule :=
  let activeRules := rules.filter (fun rule => rule.active)
  activeRules.find? (fun rule => evaluateRule rule expense)

/-- `addRule`: push, then re-sort. -/
def addRule (rules : List ApprovalRule) (rule : ApprovalRule) : List ApprovalRule :=
  sortByPriority (rules ++ [rule])

/-- Model of a TS `Partial<ApprovalRule>` passed to `updateRule`. -/
structure RuleUpdate where
  id : Option String := none
  name : Option String := none
  description : Option String := none
  conditions : Option (List ApprovalCondition) := none
  approvalLevels : Option (List ApprovalLevel) := none
  priority : Option Int := none
  active : Option Bool := none
deriving DecidableEq, Repr

/-- The object spread `{ ...this.rules[index], ...updates }`. -/
def applyUpdate (r : ApprovalRule) (u : RuleUpdate) : ApprovalRule :=
  { id := u.id.getD r.id
    name := u.name.getD r.name
    description := u.description.getD r.description
    conditions := u.conditions.getD r.conditions
    approvalLevels := u.approvalLevels.getD r.approvalLevels
    priority := u.priority.getD r.priority
    active := u.active.getD r.active }

/-- `updateRule`: replace the rule with the given id by its merged copy and
re-sort; returns whether such a rule existed, with the new rules field. -/
def updateRule (rules : List ApprovalRule) (ruleId : String) (updates : RuleUpdate) :
    Bool × List ApprovalRule :=
  match rules.findIdx? (fun r => r.id == ruleId) with
  | none => (false, rules)
  | some index =>
    match rules.get? index with
    | none => (false, rules)
    | some r => (true, sortByPriority (rules.set index (applyUpdate r updates)))

/-- `deactivateRule(id)` = `updateRule(id, { active: false })`. -/
def deactivateRule (rules : List ApprovalRule) (ruleId : String) :
    Bool × List ApprovalRule :=
  updateRule rules ruleId { active := some false }

end ApprovalRuleEngine

/-- Individual approval action within a step (`models/ApprovalFlow.ts`). -/
structure StepApproval where
  approverId : String
  approverName : String
  approverRole : String
  action : ApprovalAction
  timestamp : Nat
  comments : Option String
deriving DecidableEq, Repr

/-- Single step in the approval flow (`models/ApprovalFlow.ts`). -/
structure ApprovalStep where
  level : Nat
  approverRoles : List String
  requiredApprovers : Nat
  approvals : List StepApproval
  status : StepStatus
  startedAt : Option Nat := none
  completedAt : Option Nat := none
deriving DecidableEq, Repr

/-- Approval flow instance for a specific expense (`models/ApprovalFlow.ts`). -/
structure ApprovalFlow where
  id : String
  expenseId : String
  ruleId : String
  currentLevel : Nat
  totalLevels : Nat
  status : FlowStatus
  steps : List ApprovalStep
  createdAt : Nat
  completedAt : Option Nat := none
deriving DecidableEq, Repr

namespace ApprovalFlowService

/-- Error taxonomy of `ApprovalFlowService.processApproval` and
`createApprovalFlow` (each constructor corresponds to one `throw`). -/
inductive FlowError where
  | NoMatchingRule
  | FlowNotFound
  | FlowAlreadyResolved (status : FlowStatus)
  | InvalidLevel (level : Nat)
  | UnauthorizedRole (role : String) (level : Nat)
  | DuplicateApproval (approverId : String)
deriving DecidableEq, Repr

/-- The flow object literal built inside `createApprovalFlow` once a rule has
matched: one step per rule level with the level's role set and required count
copied, empty approvals, status `PENDING`, and `startedAt` set only on the
first step. -/
def mkFlow (rule : ApprovalRule) (expense : Expense) (now : Nat) : ApprovalFlow :=
  { id := "flow-" ++ expense.id ++ "-" ++ toString now
    expenseId := expense.id
    ruleId := rule.id
    currentLevel := 1
    totalLevels := rule.approvalLevels.length
    status := FlowStatus.PENDING
    steps := rule.approvalLevels.enum.map (fun p =>
      { level := p.2.level
        approverRoles := p.2.approverRoles
        requiredApprovers := p.2.requiredApprovers
        approvals := []
        status := StepStatus.PENDING
        startedAt := if p.1 = 0 then some now else none
        completedAt := none })
    createdAt := now
    completedAt := none }

/-- JS `Map.set` on the `flows` map keyed by flow id. -/
def setFlow (flows : List ApprovalFlow) (flow : ApprovalFlow) : List ApprovalFlow :=
  if flows.any (fun f => f.id == flow.id) then
    flows.map (fun f => if f.id == flow.id then flow else f)
  else flows ++ [flow]

/-- `getFlow(flowId)`: map lookup. -/
def getFlow (flows : List ApprovalFlow) (flowId : String) : Option ApprovalFlow :=
  flows.find? (fun f => f.id == flowId)

/-- `getFlowByExpenseId(expenseId)`: linear scan over the map's values. -/
def getFlowByExpenseId (flows : List ApprovalFlow) (expenseId : String) : Option ApprovalFlow :=
  flows.find? (fun f => f.expenseId == expenseId)

/-- `createApprovalFlow(expense)` over the service state (rule-engine rules and
the flows map): consult `findMatchingRule`, throw when none, else store the
fresh flow. -/
def createApprovalFlow (rules : List ApprovalRule) (flows : List ApprovalFlow)
    (expense : Expense) (now : Nat) :
    Except FlowError (ApprovalFlow × List ApprovalFlow) :=
  match ApprovalRuleEngine.findMatchingRule rules expense with
  | none => Except.error FlowError.NoMatchingRule
  | some rule =>
    let flow := mkFlow rule expense now
    Except.ok (flow, setFlow flows flow)

/-- The source's `flow.steps[flow.currentLevel - 1]`: JS indexing with a
negative index (when `currentLevel = 0`) yields `undefined`. -/
def currentStep? (flow : ApprovalFlow) : Option ApprovalStep :=
  if flow.currentLevel = 0 then none
  else flow.steps.get? (flow.currentLevel - 1)

/-- Body of `processApproval` after the `flows.get(flowId)` lookup, acting on
one flow; each `Except.error` corresponds to one `throw` of the source, all of
which occur before the first mutation. -/
def processApprovalFlow (flow : ApprovalFlow)
    (approverId approverName approverRole : String)
    (action : ApprovalAction) (comments : Option String) (now : Nat) :
    Except FlowError ApprovalFlow :=
  if flow.status = FlowStatus.PENDING then
    match currentStep? flow with
    | none => Except.error (FlowError.InvalidLevel flow.currentLevel)
    | some currentStep =>
      if approverRole ∈ currentStep.approverRoles then
        if ∃ a ∈ currentStep.approvals, a.approverId = approverId then
          Except.error (FlowError.DuplicateApproval approverId)
        else
          let approval : StepApproval :=
            { approverId := approverId
              approverName := approverName
              approverRole := approverRole
              action := action
              timestamp := now
              comments := comments }
          let step1 := { currentStep with approvals := currentStep.approvals ++ [approval] }
          if action = ApprovalAction.REJECTED then
            Except.ok { flow with
              steps := flow.steps.set (flow.currentLevel - 1)
                { step1 with status := StepStatus.REJECTED, completedAt := some now }
              status := FlowStatus.REJECTED
              completedAt := some now }
          else
            let approvedCount :=
              (step1.approvals.filter (fun a => a.action == ApprovalAction.APPROVED)).length
            if approvedCount ≥ currentStep.requiredApprovers then
              let step2 := { step1 with status := StepStatus.APPROVED, completedAt := some now }
              let steps2 := flow.steps.set (flow.currentLevel - 1) step2
              if flow.currentLevel < flow.totalLevels then
                -- advance and mark the new current step started; the next step
                -- exists whenever steps.length = totalLevels (the source would
                -- fault on `nextStep.startedAt` otherwise)
                let steps3 :=
                  match steps2.get? flow.currentLevel with
                  | some nextStep => steps2.set flow.currentLevel
                      { nextStep with startedAt := some now }
                  | none => steps2
                Except.ok { flow with currentLevel := flow.currentLevel + 1, steps := steps3 }
              else
                Except.ok { flow with
                  steps := steps2
                  status := FlowStatus.APPROVED
                  completedAt := some now }
            else
              Except.ok { flow with steps := flow.steps.set (flow.currentLevel - 1) step1 }
      else
        Except.error (FlowError.UnauthorizedRole approverRole flow.currentLevel)
  else
    Except.error (FlowError.FlowAlreadyResolved flow.status)

/-- `processApproval` as the service exposes it: look the flow up by id,
process, and store the updated flow; the post-call flows map is returned
alongside the result (errors leave it untouched, matching the source where
every `throw` precedes the first mutation). -/
def processApproval (flows : List ApprovalFlow) (flowId : String)
    (approverId approverName approverRole : String)
    (action : ApprovalAction) (comments : Option String) (now : Nat) :
    Except FlowError ApprovalFlow × List ApprovalFlow :=
  match getFlow flows flowId with
  | none => (Except.error FlowError.FlowNotFound, flows)
  | some flow =>
    match processApprovalFlow flow approverId approverName approverRole action comments now with
    | Except.error e => (Except.error e, flows)
    | Except.ok flow1 =>
      (Except.ok flow1, flows.map (fun f => if f.id == flowId then flow1 else f))

end ApprovalFlowService

/-- Combined in-memory state of the three engines: the rule engine's sorted
`rules` field, the flow service's `flows` map and the expense service's
`expenses` map (both maps as insertion-ordered lists with unique keys). -/
structure SystemState where
  rules : List ApprovalRule
  flows : List ApprovalFlow
  expenses : List Expense
deriving DecidableEq, Repr

namespace ExpenseService

/-- Error taxonomy of `ExpenseService`; flow-engine failures are propagated
unchanged (`flowFailure`). -/
inductive ExpenseError where
  | ExpenseNotFound
  | AlreadySubmitted
  | NotPendingApproval
  | NoFlowFound
  | NotOwner
  | AlreadyFinal (status : ExpenseStatus)
  | flowFailure (e : ApprovalFlowService.FlowError)
deriving DecidableEq, Repr

/-- `this.expenses.get(expenseId)`. -/
def getExpense (expenses : List Expense) (expenseId : String) : Option Expense :=
  expenses.find? (fun e => e.id == expenseId)

/-- JS `Map.set` on the `expenses` map keyed by expense id; in-place mutation
of a stored expense object is this update applied at its existing key. -/
def setExpense (expenses : List Expense) (expense : Expense) : List Expense :=
  if expenses.any (fun e => e.id == expense.id) then
    expenses.map (fun e => if e.id == expense.id then expense else e)
  else expenses ++ [expense]

/-- `submitExpense(expenseId)`. Faithful to the source's ordering: the expense
is switched to `PENDING` and stamped with `submittedAt` BEFORE
`createApprovalFlow` is consulted, so a `NoMatchingRule` failure escapes with
that mutation already applied (the result is paired with the post-call
state to make this visible). -/
def submitExpense (st : SystemState) (expenseId : String) (now : Nat) :
    Except ExpenseError (Expense × String) × SystemState :=
  match getExpense st.expenses expenseId with
  | none => (Except.error ExpenseError.ExpenseNotFound, st)
  | some expense =>
    if expense.status = ExpenseStatus.DRAFT then
      let expense1 := { expense with
        status := ExpenseStatus.PENDING, submittedAt := some now }
      let st1 := { st with expenses := setExpense st.expenses expense1 }
      match ApprovalFlowService.createApprovalFlow st1.rules st1.flows expense1 now with
      | Except.error e => (Except.error (ExpenseError.flowFailure e), st1)
      | Except.ok (flow, flows1) =>
        (Except.ok (expense1, flow.id), { st1 with flows := flows1 })
    else
      (Except.error ExpenseError.AlreadySubmitted, st)

/-- `processExpenseApproval(expenseId, ...)`: guard the expense, find its flow,
delegate to the flow service, then append an `ApprovalRecord` whose
`approverLevel` reproduces the source arithmetic
`updatedFlow.currentLevel - (action === APPROVED && updatedFlow.status === APPROVED ? 0 : 1)`
and mirror a terminal flow status onto the expense. -/
def processExpenseApproval (st : SystemState)
    (expenseId approverId approverName approverRole : String)
    (action : ApprovalAction) (comments : Option String) (now : Nat) :
    Except ExpenseError Expense × SystemState :=
  match getExpense st.expenses expenseId with
  | none => (Except.error ExpenseError.ExpenseNotFound, st)
  | some expense =>
    if expense.status = ExpenseStatus.PENDING then
      match ApprovalFlowService.getFlowByExpenseId st.flows expenseId with
      | none => (Except.error ExpenseError.NoFlowFound, st)
      | some flow =>
        match ApprovalFlowService.processApproval st.flows flow.id
            approverId approverName approverRole action comments now with
        | (Except.error e, _) => (Except.error (ExpenseError.flowFailure e), st)
        | (Except.ok updatedFlow, flows1) =>
          let approvalRecord : ApprovalRecord :=
            { approverId := approverId
              approverName := approverName
              approverLevel := updatedFlow.currentLevel -
                (if action = ApprovalAction.APPROVED ∧ updatedFlow.status = FlowStatus.APPROVED
                 then 0 else 1)
              action := action
              timestamp := now
              comments := comments }
          let expense1 := { expense with
            approvalHistory := expense.approvalHistory ++ [approvalRecord] }
          let expense2 :=
            if updatedFlow.status = FlowStatus.APPROVED then
              { expense1 with status := ExpenseStatus.APPROVED }
            else if updatedFlow.status = FlowStatus.REJECTED then
              { expense1 with status := ExpenseStatus.REJECTED }
            else expense1
          (Except.ok expense2,
            { st with
              flows := flows1
              expenses := setExpense st.expenses expense2 })
    else
      (Except.error ExpenseError.NotPendingApproval, st)

end ExpenseService

/-- System-level `updateRule`: the rule engine owns `rules` exclusively; the
method reads and writes no flow or expense record, and the merged rule it
stores is a fresh object, so stored flows cannot observe the edit. -/
def SystemState.updateRule (st : SystemState) (ruleId : String)
    (updates : ApprovalRuleEngine.RuleUpdate) : Bool × SystemState :=
  let r := ApprovalRuleEngine.updateRule st.rules ruleId updates
  (r.1, { st with rules := r.2 })

/-- System-level `deactivateRule`. -/
def SystemState.deactivateRule (st : SystemState) (ruleId : String) : Bool × SystemState :=
  SystemState.updateRule st ruleId { active := some false }

namespace ApprovalFlowService

/-- Structural invariant a flow satisfies throughout its life: one step per
level, a 1-based current-level pointer in range, all steps strictly before the
current one approved, all steps strictly after it pending and untouched, and
the current step's status mirroring the flow status. -/
structure FlowInv (flow : ApprovalFlow) : Prop where
  steps_length : flow.steps.length = flow.totalLevels
  one_le_current : 1 ≤ flow.currentLevel
  current_le : flow.currentLevel ≤ max 1 flow.totalLevels
  pos_of_resolved : flow.status ≠ FlowStatus.PENDING → 0 < flow.totalLevels
  current_eq_of_approved : flow.status = FlowStatus.APPROVED →
    flow.currentLevel = flow.totalLevels
  step_before : ∀ i step, flow.steps.get? i = some step → i + 1 < flow.currentLevel →
    step.status = StepStatus.APPROVED
  step_after : ∀ i step, flow.steps.get? i = some step → flow.currentLevel < i + 1 →
    step.status = StepStatus.PENDING ∧ step.approvals = []
  step_current : ∀ i step, flow.steps.get? i = some step → i + 1 = flow.currentLevel →
    (flow.status = FlowStatus.PENDING → step.status = StepStatus.PENDING) ∧
    (flow.status = FlowStatus.APPROVED → step.status = StepStatus.APPROVED) ∧
    (flow.status = FlowStatus.REJECTED → step.status = StepStatus.REJECTED)
  approver_nodup : ∀ i step, flow.steps.get? i = some step →
    (step.approvals.map (fun a => a.approverId)).Nodup

/-- Flows reachable through the service: created by `createApprovalFlow` under
some matched rule, then mutated only by successful `processApproval` calls. -/
inductive FlowReachable : ApprovalFlow → Prop where
  | create (rule : ApprovalRule) (expense : Expense) (now : Nat) :
      FlowReachable (mkFlow rule expense now)
  | approve {flow flow' : ApprovalFlow}
      (approverId approverName approverRole : String) (action : ApprovalAction)
      (comments : Option String) (now : Nat) :
      FlowReachable flow →
      processApprovalFlow flow approverId approverName approverRole action comments now
        = Except.ok flow' →
      FlowReachable flow'

/-- Zero or more successful `processApproval` calls starting from a flow. -/
inductive FlowEvolves : ApprovalFlow → ApprovalFlow → Prop where
  | refl (flow : ApprovalFlow) : FlowEvolves flow flow
  | tail {flow flow1 flow2 : ApprovalFlow}
      (approverId approverName approverRole : String) (action : ApprovalAction)
      (comments : Option String) (now : Nat) :
      FlowEvolves flow flow1 →
      processApprovalFlow flow1 approverId approverName approverRole action comments now
        = Except.ok flow2 →
      FlowEvolves flow flow2

end ApprovalFlowService

/-- Spec-side description of `findMatchingRule` (spec sections 4.1 and 8):
scan the rules in insertion order, keeping the earliest rule of maximal
priority among the active rules whose conditions all evaluate true. Used to
state the refinement of claim C3 against the source-side definition. -/
def specFirstMatch (rules : List ApprovalRule) (expense : Expense) : Option ApprovalRule :=
  match rules with
  | [] => none
  | r :: rest =>
    match specFirstMatch rest expense with
    | none =>
      if r.active ∧ ApprovalRuleEngine.evaluateRule r expense then some r else none
    | some b =>
      if (r.active ∧ ApprovalRuleEngine.evaluateRule r expense) ∧ b.priority ≤ r.priority
      then some r else some b

/-- Sample expense used by concrete witnesses and counterexamples. -/
def sampleExpense : Expense :=
  { id := "exp-1", employeeId := "emp-1", employeeName := "John Doe", amount := 50
    currency := "USD", category := "MEALS", description := "Lunch", date := 0
    status := ExpenseStatus.DRAFT, approvalHistory := [] }

/-- Two-level rule (manager then director) matching every expense. -/
def sampleRuleTwoLevel : ApprovalRule :=
  { id := "rule-2", name := "Two Level", description := "", conditions := []
    approvalLevels :=
      [{ level := 1, approverRoles := ["MANAGER"], requiredApprovers := 1 },
       { level := 2, approverRoles := ["DIRECTOR"], requiredApprovers := 1 }]
    priority := 2, active := true }

/-- Single-level rule requiring two distinct manager approvals. -/
def sampleRuleTwoApprovers : ApprovalRule :=
  { id := "rule-req2", name := "Two Approvers", description := "", conditions := []
    approvalLevels := [{ level := 1, approverRoles := ["MANAGER"], requiredApprovers := 2 }]
    priority := 1, active := true }

/-- Rule with an empty approval-level list. -/
def sampleRuleNoLevels : ApprovalRule :=
  { id := "rule-0", name := "No Levels", description := "", conditions := []
    approvalLevels := [], priority := 1, active := true }

/-- Condition-free active rules of priorities 3, 2 and 1 (insertion order
C, A, B) for the priority-ordering counterexample of claim C3. -/
def sampleRuleC : ApprovalRule :=
  { id := "C", name := "", description := "", conditions := []
    approvalLevels := [{ level := 1, approverRoles := ["VP"], requiredApprovers := 1 }]
    priority := 3, active := true }

def sampleRuleA : ApprovalRule :=
  { id := "A", name := "", description := "", conditions := []
    approvalLevels := [{ level := 1, approverRoles := ["MANAGER"], requiredApprovers := 1 }]
    priority := 2, active := true }

def sampleRuleB : ApprovalRule :=
  { id := "B", name := "", description := "", conditions := []
    approvalLevels := [{ level := 1, approverRoles := ["MANAGER"], requiredApprovers := 1 }]
    priority := 1, active := true }

namespace ApprovalFlowService

theorem currentStep?_eq_some {flow : ApprovalFlow} {step : ApprovalStep}
    (h : currentStep? flow = some step) :
    flow.currentLevel ≠ 0 ∧ flow.steps.get? (flow.currentLevel - 1) = some step := by
  unfold currentStep? at h
  split at h
  · exact absurd h (by simp)
  · exact ⟨by assumption, h⟩

theorem nodup_map_append_singleton {α β : Type} {l : List α} {a : α} (f : α → β)
    (h : (l.map f).Nodup) (ha : ∀ x ∈ l, f x ≠ f a) : ((l ++ [a]).map f).Nodup := by
  rw [List.map_append, List.map_singleton]
  rw [List.nodup_append]
  refine ⟨h, List.nodup_singleton _, ?_⟩
  intro y hy hy1
  simp only [List.mem_singleton] at hy1
  obtain ⟨x, hx, hfx⟩ := List.mem_map.mp hy
  exact ha x hx (hfx.trans hy1)

/-- A freshly created flow satisfies the invariant. -/
theorem flowInv_mkFlow (rule : ApprovalRule) (expense : Expense) (now : Nat) :
    FlowInv (mkFlow rule expense now) := by
  have hsteps : ∀ i step, (mkFlow rule expense now).steps.get? i = some step →
      step.status = StepStatus.PENDING ∧ step.approvals = [] := by
    intro i step h
    simp only [mkFlow, List.get?_map] at h
    obtain ⟨p, _, hfp⟩ := Option.map_eq_some'.mp h
    constructor
    · rw [hfp.symm]
    · rw [hfp.symm]
  refine ⟨?_, ?_, ?_, ?_, ?_, ?_, ?_, ?_, ?_⟩
  · simp [mkFlow]
  · exact le_refl 1
  · exact le_max_left 1 _
  · intro hne; exact absurd rfl hne
  · intro hap; exact absurd hap (by simp [mkFlow])
  · intro i step hget hlt
    exact absurd hlt (by simp [mkFlow])
  · intro i step hget _
    exact hsteps i step hget
  · intro i step hget _
    refine ⟨fun _ => (hsteps i step hget).1, fun hap => ?_, fun hrj => ?_⟩
    · exact absurd hap (by simp [mkFlow])
    · exact absurd hrj (by simp [mkFlow])
  · intro i step hget
    rw [(hsteps i step hget).2]
    exact List.nodup_nil

end ApprovalFlowService

namespace ApprovalFlowService

/-- `processApproval` preserves the structural invariant on every success. -/
theorem flowInv_processApprovalFlow {flow flow' : ApprovalFlow}
    {approverId approverName approverRole : String} {action : ApprovalAction}
    {comments : Option String} {now : Nat}
    (hInv : FlowInv flow)
    (h : processApprovalFlow flow approverId approverName approverRole action comments now
      = Except.ok flow') : FlowInv flow' := by
  simp only [processApprovalFlow] at h
  split at h
  case isFalse => exact absurd h (by simp)
  case isTrue hPend =>
  split at h
  case h_1 => exact absurd h (by simp)
  case h_2 currentStep hcs =>
  obtain ⟨hcl0, hstep⟩ := currentStep?_eq_some hcs
  have hclpos : 0 < flow.currentLevel := Nat.pos_of_ne_zero hcl0
  have hidx : flow.currentLevel - 1 + 1 = flow.currentLevel := Nat.succ_pred_eq_of_pos hclpos
  have hidx_lt : flow.currentLevel - 1 < flow.steps.length := by
    rw [List.get?_eq_some] at hstep
    exact hstep.1
  have hTpos : 0 < flow.totalLevels := by
    rw [hInv.steps_length] at hidx_lt
    exact lt_of_le_of_lt (Nat.zero_le _) hidx_lt
  have hclT : flow.currentLevel ≤ flow.totalLevels := by
    have := hInv.current_le
    rwa [max_eq_right hTpos] at this
  split at h
  case isFalse => exact absurd h (by simp)
  case isTrue hrole =>
  split at h
  case isTrue => exact absurd h (by simp)
  case isFalse hnodupnew =>
  have hfresh : ∀ a ∈ currentStep.approvals, a.approverId ≠ approverId := by
    intro a ha hcontra
    exact hnodupnew ⟨a, ha, hcontra⟩
  -- the appended approval and the one-step-updated list
  split at h
  -- rejection branch
  case isTrue hact =>
    simp only [Except.ok.injEq] at h
    subst h
    refine ⟨?_, ?_, ?_, ?_, ?_, ?_, ?_, ?_, ?_⟩
    · simp [List.length_set, hInv.steps_length]
    · exact hInv.one_le_current
    · exact hInv.current_le
    · intro _; exact hTpos
    · intro hap; exact absurd hap (by simp)
    · intro i step hget hlt
      by_cases hi : i = flow.currentLevel - 1
      · subst hi; rw [hidx] at hlt; exact absurd hlt (lt_irrefl _)
      · rw [List.get?_set_ne _ _ (fun hcontra => hi hcontra.symm)] at hget
        exact hInv.step_before i step hget hlt
    · intro i step hget hlt
      by_cases hi : i = flow.currentLevel - 1
      · subst hi; rw [hidx] at hlt; exact absurd hlt (lt_irrefl _)
      · rw [List.get?_set_ne _ _ (fun hcontra => hi hcontra.symm)] at hget
        exact hInv.step_after i step hget hlt
    · intro i step hget hieq
      dsimp only at hieq
      have hi : i = flow.currentLevel - 1 := by omega
      subst hi
      rw [List.get?_set_eq_of_lt _ hidx_lt] at hget
      refine ⟨fun hpd => ?_, fun hap => ?_, fun _ => ?_⟩
      · exact absurd hpd (by simp)
      · exact absurd hap (by simp)
      · rw [← Option.some_inj.mp hget]
    · intro i step hget
      by_cases hi : i = flow.currentLevel - 1
      · subst hi
        rw [List.get?_set_eq_of_lt _ hidx_lt] at hget
        rw [← Option.some_inj.mp hget]
        exact nodup_map_append_singleton _ (hInv.approver_nodup _ _ hstep) hfresh
      · rw [List.get?_set_ne _ _ (fun hcontra => hi hcontra.symm)] at hget
        exact hInv.approver_nodup i step hget
  -- approval branches
  case isFalse hact =>
  split at h
  case isFalse =>
    -- accumulate: not enough approvals yet
    simp only [Except.ok.injEq] at h
    subst h
    refine ⟨?_, ?_, ?_, ?_, ?_, ?_, ?_, ?_, ?_⟩
    · simp [List.length_set, hInv.steps_length]
    · exact hInv.one_le_current
    · exact hInv.current_le
    · intro hne; exact absurd hPend hne
    · intro hap; rw [hPend] at hap; exact absurd hap (by simp)
    · intro i step hget hlt
      by_cases hi : i = flow.currentLevel - 1
      · subst hi; rw [hidx] at hlt; exact absurd hlt (lt_irrefl _)
      · rw [List.get?_set_ne _ _ (fun hcontra => hi hcontra.symm)] at hget
        exact hInv.step_before i step hget hlt
    · intro i step hget hlt
      by_cases hi : i = flow.currentLevel - 1
      · subst hi; rw [hidx] at hlt; exact absurd hlt (lt_irrefl _)
      · rw [List.get?_set_ne _ _ (fun hcontra => hi hcontra.symm)] at hget
        exact hInv.step_after i step hget hlt
    · intro i step hget hieq
      dsimp only at hieq
      have hi : i = flow.currentLevel - 1 := by omega
      subst hi
      rw [List.get?_set_eq_of_lt _ hidx_lt] at hget
      refine ⟨fun _ => ?_, fun hap => ?_, fun hrj => ?_⟩
      · rw [← Option.some_inj.mp hget]
        exact (hInv.step_current _ _ hstep hidx).1 hPend
      · rw [hPend] at hap; exact absurd hap (by simp)
      · rw [hPend] at hrj; exact absurd hrj (by simp)
    · intro i step hget
      by_cases hi : i = flow.currentLevel - 1
      · subst hi
        rw [List.get?_set_eq_of_lt _ hidx_lt] at hget
        rw [← Option.some_inj.mp hget]
        exact nodup_map_append_singleton _ (hInv.approver_nodup _ _ hstep) hfresh
      · rw [List.get?_set_ne _ _ (fun hcontra => hi hcontra.symm)] at hget
        exact hInv.approver_nodup i step hget
  case isTrue hcount =>
  split at h
  case isFalse hlast =>
    -- final level completed: the flow is approved
    have hclT' : flow.currentLevel = flow.totalLevels := by omega
    simp only [Except.ok.injEq] at h
    subst h
    refine ⟨?_, ?_, ?_, ?_, ?_, ?_, ?_, ?_, ?_⟩
    · simp [List.length_set, hInv.steps_length]
    · exact hInv.one_le_current
    · exact hInv.current_le
    · intro _; exact hTpos
    · intro _; exact hclT'
    · intro i step hget hlt
      by_cases hi : i = flow.currentLevel - 1
      · subst hi; rw [hidx] at hlt; exact absurd hlt (lt_irrefl _)
      · rw [List.get?_set_ne _ _ (fun hcontra => hi hcontra.symm)] at hget
        exact hInv.step_before i step hget hlt
    · intro i step hget hlt
      by_cases hi : i = flow.currentLevel - 1
      · subst hi; rw [hidx] at hlt; exact absurd hlt (lt_irrefl _)
      · rw [List.get?_set_ne _ _ (fun hcontra => hi hcontra.symm)] at hget
        exact hInv.step_after i step hget hlt
    · intro i step hget hieq
      dsimp only at hieq
      have hi : i = flow.currentLevel - 1 := by omega
      subst hi
      rw [List.get?_set_eq_of_lt _ hidx_lt] at hget
      refine ⟨fun hpd => ?_, fun _ => ?_, fun hrj => ?_⟩
      · exact absurd hpd (by simp)
      · rw [← Option.some_inj.mp hget]
      · exact absurd hrj (by simp)
    · intro i step hget
      by_cases hi : i = flow.currentLevel - 1
      · subst hi
        rw [List.get?_set_eq_of_lt _ hidx_lt] at hget
        rw [← Option.some_inj.mp hget]
        exact nodup_map_append_singleton _ (hInv.approver_nodup _ _ hstep) hfresh
      · rw [List.get?_set_ne _ _ (fun hcontra => hi hcontra.symm)] at hget
        exact hInv.approver_nodup i step hget
  case isTrue hmore =>
    -- step completed with further levels remaining: advance the pointer
    have hne : flow.currentLevel ≠ flow.currentLevel - 1 := by omega
    have hcl_lt : flow.currentLevel < flow.steps.length := by
      rw [hInv.steps_length]; exact hmore
    split at h
    case h_2 =>
      -- steps2.get? currentLevel = none is impossible here
      rename_i hnone
      rw [List.get?_set_ne _ _ (fun hcontra => hne hcontra.symm)] at hnone
      rw [List.get?_eq_get hcl_lt] at hnone
      exact absurd hnone (by simp)
    case h_1 nextStep hnext =>
    rw [List.get?_set_ne _ _ (fun hcontra => hne hcontra.symm)] at hnext
    have hnextPend : nextStep.status = StepStatus.PENDING ∧ nextStep.approvals = [] := by
      refine hInv.step_after _ _ hnext ?_
      omega
    simp only [Except.ok.injEq] at h
    subst h
    refine ⟨?_, ?_, ?_, ?_, ?_, ?_, ?_, ?_, ?_⟩
    · simp [List.length_set, hInv.steps_length]
    · dsimp only; omega
    · have : flow.currentLevel + 1 ≤ flow.totalLevels := by omega
      exact this.trans (le_max_right 1 _)
    · intro hne'; exact absurd hPend hne'
    · intro hap; rw [hPend] at hap; exact absurd hap (by simp)
    · intro i step hget hlt
      dsimp only at hlt
      by_cases hi2 : i = flow.currentLevel
      · subst hi2; exact absurd hlt (by omega)
      · rw [List.get?_set_ne _ _ (fun hcontra => hi2 hcontra.symm)] at hget
        by_cases hi : i = flow.currentLevel - 1
        · subst hi
          rw [List.get?_set_eq_of_lt _ hidx_lt] at hget
          rw [← Option.some_inj.mp hget]
        · rw [List.get?_set_ne _ _ (fun hcontra => hi hcontra.symm)] at hget
          refine hInv.step_before i step hget ?_
          omega
    · intro i step hget hlt
      dsimp only at hlt
      have hi2 : i ≠ flow.currentLevel := by omega
      have hi : i ≠ flow.currentLevel - 1 := by omega
      rw [List.get?_set_ne _ _ (fun hcontra => hi2 hcontra.symm)] at hget
      rw [List.get?_set_ne _ _ (fun hcontra => hi hcontra.symm)] at hget
      refine hInv.step_after i step hget ?_
      omega
    · intro i step hget hieq
      dsimp only at hieq
      have hi2 : i = flow.currentLevel := by omega
      subst hi2
      rw [List.get?_set_eq_of_lt _ (by rw [List.length_set]; exact hcl_lt)] at hget
      refine ⟨fun _ => ?_, fun hap => ?_, fun hrj => ?_⟩
      · rw [← Option.some_inj.mp hget]
        exact hnextPend.1
      · rw [hPend] at hap; exact absurd hap (by simp)
      · rw [hPend] at hrj; exact absurd hrj (by simp)
    · intro i step hget
      by_cases hi2 : i = flow.currentLevel
      · subst hi2
        rw [List.get?_set_eq_of_lt _ (by rw [List.length_set]; exact hcl_lt)] at hget
        rw [← Option.some_inj.mp hget]
        simp [hnextPend.2]
      · rw [List.get?_set_ne _ _ (fun hcontra => hi2 hcontra.symm)] at hget
        by_cases hi : i = flow.currentLevel - 1
        · subst hi
          rw [List.get?_set_eq_of_lt _ hidx_lt] at hget
          rw [← Option.some_inj.mp hget]
          exact nodup_map_append_singleton _ (hInv.approver_nodup _ _ hstep) hfresh
        · rw [List.get?_set_ne _ _ (fun hcontra => hi hcontra.symm)] at hget
          exact hInv.approver_nodup i step hget

end ApprovalFlowService

namespace ApprovalFlowService

theorem flowInv_of_reachable {flow : ApprovalFlow} (h : FlowReachable flow) : FlowInv flow := by
  induction h with
  | create rule expense now => exact flowInv_mkFlow rule expense now
  | approve _ _ _ _ _ _ _ hstep ih => exact flowInv_processApprovalFlow ih hstep

/-- Reduction of `processApprovalFlow` on a rejection that passes every guard. -/
theorem processApprovalFlow_rejected {flow : ApprovalFlow} {step : ApprovalStep}
    {approverId approverName approverRole : String} {comments : Option String} {now : Nat}
    (hPend : flow.status = FlowStatus.PENDING)
    (hstep : currentStep? flow = some step)
    (hrole : approverRole ∈ step.approverRoles)
    (hfresh : ∀ a ∈ step.approvals, a.approverId ≠ approverId) :
    processApprovalFlow flow approverId approverName approverRole
      ApprovalAction.REJECTED comments now =
    Except.ok { flow with
      steps := flow.steps.set (flow.currentLevel - 1)
        { step with
          approvals := step.approvals ++
            [{ approverId := approverId, approverName := approverName
               approverRole := approverRole, action := ApprovalAction.REJECTED
               timestamp := now, comments := comments }]
          status := StepStatus.REJECTED
          completedAt := some now }
      status := FlowStatus.REJECTED
      completedAt := some now } := by
  have hdup : ¬∃ a ∈ step.approvals, a.approverId = approverId := by
    rintro ⟨a, ha, haid⟩; exact hfresh a ha haid
  simp only [processApprovalFlow, hstep, hPend, if_true, if_pos hrole, if_neg hdup]

/-- Reduction of `processApprovalFlow` on an approval that passes every guard
but leaves the approved count below the step's requirement. -/
theorem processApprovalFlow_approved_below {flow : ApprovalFlow} {step : ApprovalStep}
    {approverId approverName approverRole : String} {comments : Option String} {now : Nat}
    (hPend : flow.status = FlowStatus.PENDING)
    (hstep : currentStep? flow = some step)
    (hrole : approverRole ∈ step.approverRoles)
    (hfresh : ∀ a ∈ step.approvals, a.approverId ≠ approverId)
    (hcount : ((step.approvals ++
        [{ approverId := approverId, approverName := approverName
           approverRole := approverRole, action := ApprovalAction.APPROVED
           timestamp := now, comments := comments : StepApproval }]).filter
          (fun a => a.action == ApprovalAction.APPROVED)).length < step.requiredApprovers) :
    processApprovalFlow flow approverId approverName approverRole
      ApprovalAction.APPROVED comments now =
    Except.ok { flow with
      steps := flow.steps.set (flow.currentLevel - 1)
        { step with
          approvals := step.approvals ++
            [{ approverId := approverId, approverName := approverName
               approverRole := approverRole, action := ApprovalAction.APPROVED
               timestamp := now, comments := comments }] } } := by
  have hdup : ¬∃ a ∈ step.approvals, a.approverId = approverId := by
    rintro ⟨a, ha, haid⟩; exact hfresh a ha haid
  simp only [processApprovalFlow, hstep, hPend, if_true, if_pos hrole, if_neg hdup]
  simp only [reduceCtorEq, if_false, if_neg (not_le.mpr hcount)]

end ApprovalFlowService

namespace ApprovalFlowService

/-- Reduction of `processApprovalFlow` on an approval that completes the
current step while further levels remain: the pointer advances and the next
step is marked started. -/
theorem processApprovalFlow_approved_advance {flow : ApprovalFlow}
    {step nextStep : ApprovalStep}
    {approverId approverName approverRole : String} {comments : Option String} {now : Nat}
    (hPend : flow.status = FlowStatus.PENDING)
    (hstep : currentStep? flow = some step)
    (hrole : approverRole ∈ step.approverRoles)
    (hfresh : ∀ a ∈ step.approvals, a.approverId ≠ approverId)
    (hcount : step.requiredApprovers ≤ ((step.approvals ++
        [{ approverId := approverId, approverName := approverName
           approverRole := approverRole, action := ApprovalAction.APPROVED
           timestamp := now, comments := comments : StepApproval }]).filter
          (fun a => a.action == ApprovalAction.APPROVED)).length)
    (hmore : flow.currentLevel < flow.totalLevels)
    (hnext : flow.steps.get? flow.currentLevel = some nextStep) :
    processApprovalFlow flow approverId approverName approverRole
      ApprovalAction.APPROVED comments now =
    Except.ok { flow with
      currentLevel := flow.currentLevel + 1
      steps := (flow.steps.set (flow.currentLevel - 1)
        { step with
          approvals := step.approvals ++
            [{ approverId := approverId, approverName := approverName
               approverRole := approverRole, action := ApprovalAction.APPROVED
               timestamp := now, comments := comments }]
          status := StepStatus.APPROVED
          completedAt := some now }).set flow.currentLevel
        { nextStep with startedAt := some now } } := by
  obtain ⟨hcl0, _⟩ := currentStep?_eq_some hstep
  have hdup : ¬∃ a ∈ step.approvals, a.approverId = approverId := by
    rintro ⟨a, ha, haid⟩; exact hfresh a ha haid
  have hne : flow.currentLevel ≠ flow.currentLevel - 1 := by omega
  have hnext2 : (flow.steps.set (flow.currentLevel - 1)
      { step with
        approvals := step.approvals ++
          [{ approverId := approverId, approverName := approverName
             approverRole := approverRole, action := ApprovalAction.APPROVED
             timestamp := now, comments := comments }]
        status := StepStatus.APPROVED
        completedAt := some now }).get? flow.currentLevel = some nextStep := by
    rw [List.get?_set_ne _ _ (fun hcontra => hne hcontra.symm)]
    exact hnext
  simp only [processApprovalFlow, hstep, hPend, if_true, if_pos hrole, if_neg hdup]
  simp only [reduceCtorEq, if_false, if_pos hcount, if_pos hmore, hnext2]

/-- Reduction of `processApprovalFlow` on an approval that completes the last
step: the whole flow is approved. -/
theorem processApprovalFlow_approved_final {flow : ApprovalFlow} {step : ApprovalStep}
    {approverId approverName approverRole : String} {comments : Option String} {now : Nat}
    (hPend : flow.status = FlowStatus.PENDING)
    (hstep : currentStep? flow = some step)
    (hrole : approverRole ∈ step.approverRoles)
    (hfresh : ∀ a ∈ step.approvals, a.approverId ≠ approverId)
    (hcount : step.requiredApprovers ≤ ((step.approvals ++
        [{ approverId := approverId, approverName := approverName
           approverRole := approverRole, action := ApprovalAction.APPROVED
           timestamp := now, comments := comments : StepApproval }]).filter
          (fun a => a.action == ApprovalAction.APPROVED)).length)
    (hlast : ¬ flow.currentLevel < flow.totalLevels) :
    processApprovalFlow flow approverId approverName approverRole
      ApprovalAction.APPROVED comments now =
    Except.ok { flow with
      steps := flow.steps.set (flow.currentLevel - 1)
        { step with
          approvals := step.approvals ++
            [{ approverId := approverId, approverName := approverName
               approverRole := approverRole, action := ApprovalAction.APPROVED
               timestamp := now, comments := comments }]
          status := StepStatus.APPROVED
          completedAt := some now }
      status := FlowStatus.APPROVED
      completedAt := some now } := by
  have hdup : ¬∃ a ∈ step.approvals, a.approverId = approverId := by
    rintro ⟨a, ha, haid⟩; exact hfresh a ha haid
  simp only [processApprovalFlow, hstep, hPend, if_true, if_pos hrole, if_neg hdup]
  simp only [reduceCtorEq, if_false, if_pos hcount, if_neg hlast]

end ApprovalFlowService

open ApprovalFlowService in
/-- C10: for every expense whose highest-priority matching active rule has an
empty `approvalLevels` list, `createApprovalFlow` returns and stores a flow
with `totalLevels = 0`, an empty steps list, `currentLevel = 1` and status
`PENDING`; every subsequent `processApproval` call on that flow fails with
the `InvalidLevel` error and leaves the stored flows unchanged, so such a
flow can never become `APPROVED` or `REJECTED`. -/
theorem C10_empty_levels_flow_never_resolves
    (rules : List ApprovalRule) (flows : List ApprovalFlow) (expense : Expense)
    (rule : ApprovalRule) (now : Nat)
    (hmatch : ApprovalRuleEngine.findMatchingRule rules expense = some rule)
    (hempty : rule.approvalLevels = []) :
    createApprovalFlow rules flows expense now
      = Except.ok (mkFlow rule expense now, setFlow flows (mkFlow rule expense now)) ∧
    (mkFlow rule expense now).totalLevels = 0 ∧
    (mkFlow rule expense now).steps = [] ∧
    (mkFlow rule expense now).currentLevel = 1 ∧
    (mkFlow rule expense now).status = FlowStatus.PENDING ∧
    (∀ approverId approverName approverRole action comments now2,
      processApprovalFlow (mkFlow rule expense now) approverId approverName approverRole
        action comments now2 = Except.error (FlowError.InvalidLevel 1)) ∧
    (∀ flows2 flowId approverId approverName approverRole action comments now2,
      getFlow flows2 flowId = some (mkFlow rule expense now) →
      processApproval flows2 flowId approverId approverName approverRole action comments now2
        = (Except.error (FlowError.InvalidLevel 1), flows2)) ∧
    (∀ flow2, FlowEvolves (mkFlow rule expense now) flow2 → flow2 = mkFlow rule expense now) := by
  have hcs : currentStep? (mkFlow rule expense now) = none := by
    simp [currentStep?, mkFlow, hempty]
  have hrun : ∀ approverId approverName approverRole action comments now2,
      processApprovalFlow (mkFlow rule expense now) approverId approverName approverRole
        action comments now2 = Except.error (FlowError.InvalidLevel 1) := by
    intro approverId approverName approverRole action comments now2
    simp only [processApprovalFlow, hcs]
    simp [mkFlow]
  refine ⟨?_, by simp [mkFlow, hempty], by simp [mkFlow, hempty], rfl, rfl, hrun, ?_, ?_⟩
  · simp only [createApprovalFlow, hmatch]
  · intro flows2 flowId approverId approverName approverRole action comments now2 hfound
    simp only [processApproval, hfound, hrun]
  · intro flow2 hev
    induction hev with
    | refl => rfl
    | tail _ _ _ _ _ _ hev2 hok ih =>
      rw [ih] at hok
      rw [hrun] at hok
      exact absurd hok (by simp)

open ApprovalFlowService in
/-- Witness for C10 at a concrete input: one condition-free active rule with
no approval levels, matched by the sample expense. -/
theorem C10_witness :
    ApprovalRuleEngine.findMatchingRule [sampleRuleNoLevels] sampleExpense
      = some sampleRuleNoLevels ∧
    sampleRuleNoLevels.approvalLevels = [] ∧
    (mkFlow sampleRuleNoLevels sampleExpense 0).totalLevels = 0 ∧
    (mkFlow sampleRuleNoLevels sampleExpense 0).status = FlowStatus.PENDING ∧
    processApprovalFlow (mkFlow sampleRuleNoLevels sampleExpense 0)
      "mgr-1" "Manager One" "MANAGER" ApprovalAction.APPROVED none 1
      = Except.error (FlowError.InvalidLevel 1) := by
  have h := C10_empty_levels_flow_never_resolves [sampleRuleNoLevels] [] sampleExpense
    sampleRuleNoLevels 0 rfl rfl
  exact ⟨rfl, rfl, h.2.1, h.2.2.2.2.1, h.2.2.2.2.2.1 "mgr-1" "Manager One" "MANAGER"
    ApprovalAction.APPROVED none 1⟩

open ApprovalFlowService in
/-- C5: on a pending flow, a `REJECTED` action by an authorized,
non-duplicate approver sets the current step's status and the flow's status
to `REJECTED` with completion timestamps, and afterwards every further
`processApproval` call on that flow fails with `FlowAlreadyResolved` and
leaves the stored flows unchanged. -/
theorem C5_rejection_final_and_idempotent
    (flow : ApprovalFlow) (step : ApprovalStep)
    (approverId approverName approverRole : String) (comments : Option String) (now : Nat)
    (hPend : flow.status = FlowStatus.PENDING)
    (hstep : currentStep? flow = some step)
    (hrole : approverRole ∈ step.approverRoles)
    (hfresh : ∀ a ∈ step.approvals, a.approverId ≠ approverId) :
    ∃ flow1,
      processApprovalFlow flow approverId approverName approverRole
        ApprovalAction.REJECTED comments now = Except.ok flow1 ∧
      flow1.status = FlowStatus.REJECTED ∧
      flow1.completedAt = some now ∧
      flow1.steps.get? (flow.currentLevel - 1) = some
        { step with
          approvals := step.approvals ++
            [{ approverId := approverId, approverName := approverName
               approverRole := approverRole, action := ApprovalAction.REJECTED
               timestamp := now, comments := comments }]
          status := StepStatus.REJECTED
          completedAt := some now } ∧
      (∀ approverId2 approverName2 approverRole2 action2 comments2 now2,
        processApprovalFlow flow1 approverId2 approverName2 approverRole2
          action2 comments2 now2
          = Except.error (FlowError.FlowAlreadyResolved FlowStatus.REJECTED)) ∧
      (∀ flows flowId approverId2 approverName2 approverRole2 action2 comments2 now2,
        getFlow flows flowId = some flow1 →
        processApproval flows flowId approverId2 approverName2 approverRole2
          action2 comments2 now2
          = (Except.error (FlowError.FlowAlreadyResolved FlowStatus.REJECTED), flows)) := by
  obtain ⟨hcl0, hget⟩ := currentStep?_eq_some hstep
  have hidx_lt : flow.currentLevel - 1 < flow.steps.length := by
    rw [List.get?_eq_some] at hget
    exact hget.1
  refine ⟨_, processApprovalFlow_rejected hPend hstep hrole hfresh, rfl, rfl, ?_, ?_, ?_⟩
  · exact List.get?_set_eq_of_lt _ hidx_lt
  · intro approverId2 approverName2 approverRole2 action2 comments2 now2
    simp [processApprovalFlow]
  · intro flows flowId approverId2 approverName2 approverRole2 action2 comments2 now2 hfound
    simp [processApproval, hfound, processApprovalFlow]

open ApprovalFlowService in
/-- Witness for C5: a manager rejects the sample two-level flow; the flow is
terminally rejected and a later director approval fails
`FlowAlreadyResolved`. -/
theorem C5_witness :
    (mkFlow sampleRuleTwoLevel sampleExpense 0).status = FlowStatus.PENDING ∧
    currentStep? (mkFlow sampleRuleTwoLevel sampleExpense 0) = some
      { level := 1, approverRoles := ["MANAGER"], requiredApprovers := 1
        approvals := [], status := StepStatus.PENDING, startedAt := some 0 } ∧
    ∃ flow1,
      processApprovalFlow (mkFlow sampleRuleTwoLevel sampleExpense 0)
        "mgr-1" "Manager One" "MANAGER" ApprovalAction.REJECTED (some "Not in budget") 3
        = Except.ok flow1 ∧
      flow1.status = FlowStatus.REJECTED ∧
      processApprovalFlow flow1 "dir-1" "Director One" "DIRECTOR"
        ApprovalAction.APPROVED none 4
        = Except.error (FlowError.FlowAlreadyResolved FlowStatus.REJECTED) := by
  have h := C5_rejection_final_and_idempotent
    (mkFlow sampleRuleTwoLevel sampleExpense 0)
    { level := 1, approverRoles := ["MANAGER"], requiredApprovers := 1
      approvals := [], status := StepStatus.PENDING, startedAt := some 0 }
    "mgr-1" "Manager One" "MANAGER" (some "Not in budget") 3
    rfl rfl (by simp) (by simp)
  obtain ⟨flow1, hok, hst, _, _, hall, _⟩ := h
  exact ⟨rfl, rfl, flow1, hok, hst,
    hall "dir-1" "Director One" "DIRECTOR" ApprovalAction.APPROVED none 4⟩

open ApprovalFlowService in
/-- C6: once an approver id has recorded any action on the current step,
every further `processApproval` call by the same approver id (under a role
accepted at that step) fails with `DuplicateApproval`; moreover, in every
reachable flow the approver ids recorded on any one step are pairwise
distinct, so one approver never contributes two approvals to a step's
required count. -/
theorem C6_duplicate_approval_rejected
    (flow : ApprovalFlow) (step : ApprovalStep) (a : StepApproval)
    (approverId approverRole : String)
    (hPend : flow.status = FlowStatus.PENDING)
    (hstep : currentStep? flow = some step)
    (hrole : approverRole ∈ step.approverRoles)
    (hmem : a ∈ step.approvals)
    (haid : a.approverId = approverId) :
    (∀ approverName action comments now,
      processApprovalFlow flow approverId approverName approverRole action comments now
        = Except.error (FlowError.DuplicateApproval approverId)) ∧
    (∀ flow2, FlowReachable flow2 → ∀ i step2, flow2.steps.get? i = some step2 →
      ((step2.approvals.map fun x => x.approverId)).Nodup) := by
  constructor
  · intro approverName action comments now
    simp only [processApprovalFlow, hstep, hPend, if_true, if_pos hrole,
      if_pos (⟨a, hmem, haid⟩ : ∃ x ∈ step.approvals, x.approverId = approverId)]
  · intro flow2 h2 i step2 hget2
    exact (flowInv_of_reachable h2).approver_nodup i step2 hget2

open ApprovalFlowService in
/-- Witness for C6: after the first of two required manager approvals on the
sample flow, a second action by the same manager id fails
`DuplicateApproval`. -/
theorem C6_witness :
    processApprovalFlow (mkFlow sampleRuleTwoApprovers sampleExpense 0)
      "mgr-1" "Manager One" "MANAGER" ApprovalAction.APPROVED none 3
      = Except.ok
        { id := "flow-exp-1-0", expenseId := "exp-1", ruleId := "rule-req2"
          currentLevel := 1, totalLevels := 1, status := FlowStatus.PENDING
          steps := [{ level := 1, approverRoles := ["MANAGER"], requiredApprovers := 2
                      approvals := [{ approverId := "mgr-1", approverName := "Manager One"
                                      approverRole := "MANAGER"
                                      action := ApprovalAction.APPROVED
                                      timestamp := 3, comments := none }]
                      status := StepStatus.PENDING, startedAt := some 0 }]
          createdAt := 0 } ∧
    processApprovalFlow
      { id := "flow-exp-1-0", expenseId := "exp-1", ruleId := "rule-req2"
        currentLevel := 1, totalLevels := 1, status := FlowStatus.PENDING
        steps := [{ level := 1, approverRoles := ["MANAGER"], requiredApprovers := 2
                    approvals := [{ approverId := "mgr-1", approverName := "Manager One"
                                    approverRole := "MANAGER"
                                    action := ApprovalAction.APPROVED
                                    timestamp := 3, comments := none }]
                    status := StepStatus.PENDING, startedAt := some 0 }]
        createdAt := 0 }
      "mgr-1" "Manager One Again" "MANAGER" ApprovalAction.APPROVED none 5
      = Except.error (FlowError.DuplicateApproval "mgr-1") := by
  have h := C6_duplicate_approval_rejected
    { id := "flow-exp-1-0", expenseId := "exp-1", ruleId := "rule-req2"
      currentLevel := 1, totalLevels := 1, status := FlowStatus.PENDING
      steps := [{ level := 1, approverRoles := ["MANAGER"], requiredApprovers := 2
                  approvals := [{ approverId := "mgr-1", approverName := "Manager One"
                                  approverRole := "MANAGER"
                                  action := ApprovalAction.APPROVED
                                  timestamp := 3, comments := none }]
                  status := StepStatus.PENDING, startedAt := some 0 }]
      createdAt := 0 }
    { level := 1, approverRoles := ["MANAGER"], requiredApprovers := 2
      approvals := [{ approverId := "mgr-1", approverName := "Manager One"
                      approverRole := "MANAGER", action := ApprovalAction.APPROVED
                      timestamp := 3, comments := none }]
      status := StepStatus.PENDING, startedAt := some 0 }
    { approverId := "mgr-1", approverName := "Manager One", approverRole := "MANAGER"
      action := ApprovalAction.APPROVED, timestamp := 3, comments := none }
    "mgr-1" "MANAGER" rfl rfl (by simp) (by simp) rfl
  exact ⟨rfl, h.1 "Manager One Again" ApprovalAction.APPROVED none 5⟩

open ApprovalFlowService in
/-- C4: on a pending flow, an `APPROVED` action by an authorized,
non-duplicate approver appends the approval to the current step; while the
`APPROVED` count stays below the step's `requiredApprovers` the step and
flow stay pending at the same level; once the count reaches the requirement
the step becomes `APPROVED` (with completion timestamp) and either the level
advances by one with the next step marked started, or — at the last level —
the flow's status becomes `APPROVED`. -/
theorem C4_approval_counting_and_advancement
    (flow : ApprovalFlow) (step : ApprovalStep)
    (approverId approverName approverRole : String) (comments : Option String) (now : Nat)
    (hPend : flow.status = FlowStatus.PENDING)
    (hlen : flow.steps.length = flow.totalLevels)
    (hstep : currentStep? flow = some step)
    (hstatus : step.status = StepStatus.PENDING)
    (hrole : approverRole ∈ step.approverRoles)
    (hfresh : ∀ a ∈ step.approvals, a.approverId ≠ approverId) :
    ∃ flow1,
      processApprovalFlow flow approverId approverName approverRole
        ApprovalAction.APPROVED comments now = Except.ok flow1 ∧
      (((step.approvals ++
          [{ approverId := approverId, approverName := approverName
             approverRole := approverRole, action := ApprovalAction.APPROVED
             timestamp := now, comments := comments : StepApproval }]).filter
            (fun a => a.action == ApprovalAction.APPROVED)).length < step.requiredApprovers →
        flow1.status = FlowStatus.PENDING ∧
        flow1.currentLevel = flow.currentLevel ∧
        flow1.steps.get? (flow.currentLevel - 1) = some
          { step with approvals := step.approvals ++
              [{ approverId := approverId, approverName := approverName
                 approverRole := approverRole, action := ApprovalAction.APPROVED
                 timestamp := now, comments := comments }] } ∧
        step.status = StepStatus.PENDING) ∧
      (step.requiredApprovers ≤ ((step.approvals ++
          [{ approverId := approverId, approverName := approverName
             approverRole := approverRole, action := ApprovalAction.APPROVED
             timestamp := now, comments := comments : StepApproval }]).filter
            (fun a => a.action == ApprovalAction.APPROVED)).length →
        flow1.steps.get? (flow.currentLevel - 1) = some
          { step with
            approvals := step.approvals ++
              [{ approverId := approverId, approverName := approverName
                 approverRole := approverRole, action := ApprovalAction.APPROVED
                 timestamp := now, comments := comments }]
            status := StepStatus.APPROVED
            completedAt := some now } ∧
        (flow.currentLevel < flow.totalLevels →
          flow1.currentLevel = flow.currentLevel + 1 ∧
          flow1.status = FlowStatus.PENDING ∧
          ∃ nextStep, flow.steps.get? flow.currentLevel = some nextStep ∧
            flow1.steps.get? flow.currentLevel = some { nextStep with startedAt := some now }) ∧
        (¬ flow.currentLevel < flow.totalLevels →
          flow1.currentLevel = flow.currentLevel ∧
          flow1.status = FlowStatus.APPROVED ∧
          flow1.completedAt = some now)) := by
  obtain ⟨hcl0, hget⟩ := currentStep?_eq_some hstep
  have hidx_lt : flow.currentLevel - 1 < flow.steps.length := by
    rw [List.get?_eq_some] at hget
    exact hget.1
  have hne : flow.currentLevel ≠ flow.currentLevel - 1 := by omega
  by_cases hc : step.requiredApprovers ≤ ((step.approvals ++
      [{ approverId := approverId, approverName := approverName
         approverRole := approverRole, action := ApprovalAction.APPROVED
         timestamp := now, comments := comments : StepApproval }]).filter
        (fun a => a.action == ApprovalAction.APPROVED)).length
  · by_cases hm : flow.currentLevel < flow.totalLevels
    · have hcl_lt : flow.currentLevel < flow.steps.length := by rw [hlen]; exact hm
      obtain ⟨nextStep, hnext⟩ : ∃ nextStep,
          flow.steps.get? flow.currentLevel = some nextStep :=
        ⟨_, List.get?_eq_get hcl_lt⟩
      refine ⟨_, processApprovalFlow_approved_advance hPend hstep hrole hfresh hc hm hnext,
        fun hlt => absurd hc (not_le.mpr hlt), fun _ => ⟨?_, fun _ => ⟨rfl, hPend, ?_⟩,
        fun hnm => absurd hm hnm⟩⟩
      · show ((flow.steps.set _ _).set flow.currentLevel _).get? (flow.currentLevel - 1) = _
        rw [List.get?_set_ne _ _ hne]
        exact List.get?_set_eq_of_lt _ hidx_lt
      · refine ⟨nextStep, hnext, ?_⟩
        show ((flow.steps.set _ _).set flow.currentLevel _).get? flow.currentLevel = _
        refine List.get?_set_eq_of_lt _ ?_
        rw [List.length_set]
        exact hcl_lt
    · refine ⟨_, processApprovalFlow_approved_final hPend hstep hrole hfresh hc hm,
        fun hlt => absurd hc (not_le.mpr hlt), fun _ => ⟨?_, fun hm2 => absurd hm2 hm,
        fun _ => ⟨rfl, rfl, rfl⟩⟩⟩
      exact List.get?_set_eq_of_lt _ hidx_lt
  · refine ⟨_, processApprovalFlow_approved_below hPend hstep hrole hfresh (not_le.mp hc),
      fun _ => ⟨hPend, rfl, ?_, hstatus⟩, fun hc2 => absurd hc2 hc⟩
    exact List.get?_set_eq_of_lt _ hidx_lt

open ApprovalFlowService in
/-- Witness for C4: the single required manager approval completes level 1 of
the sample two-level flow; the pointer advances to level 2 and the director
step is marked started while the flow stays pending. -/
theorem C4_witness :
    ∃ flow1,
      processApprovalFlow (mkFlow sampleRuleTwoLevel sampleExpense 0)
        "mgr-1" "Manager One" "MANAGER" ApprovalAction.APPROVED none 3
        = Except.ok flow1 ∧
      flow1.currentLevel = 2 ∧
      flow1.status = FlowStatus.PENDING ∧
      flow1.steps.get? 0 = some
        { level := 1, approverRoles := ["MANAGER"], requiredApprovers := 1
          approvals := [{ approverId := "mgr-1", approverName := "Manager One"
                          approverRole := "MANAGER", action := ApprovalAction.APPROVED
                          timestamp := 3, comments := none }]
          status := StepStatus.APPROVED, startedAt := some 0, completedAt := some 3 } ∧
      flow1.steps.get? 1 = some
        { level := 2, approverRoles := ["DIRECTOR"], requiredApprovers := 1
          approvals := [], status := StepStatus.PENDING, startedAt := some 3 } := by
  obtain ⟨flow1, hok, _, hreach⟩ := C4_approval_counting_and_advancement
    (mkFlow sampleRuleTwoLevel sampleExpense 0)
    { level := 1, approverRoles := ["MANAGER"], requiredApprovers := 1
      approvals := [], status := StepStatus.PENDING, startedAt := some 0 }
    "mgr-1" "Manager One" "MANAGER" none 3
    rfl rfl rfl rfl (by simp) (by simp)
  obtain ⟨hget0, hadv, _⟩ := hreach (by decide)
  obtain ⟨hcl, hst, nextStep, hn1, hn2⟩ := hadv (by decide)
  have h0 : (mkFlow sampleRuleTwoLevel sampleExpense 0).steps.get?
      (mkFlow sampleRuleTwoLevel sampleExpense 0).currentLevel = some
      { level := 2, approverRoles := ["DIRECTOR"], requiredApprovers := 1
        approvals := [], status := StepStatus.PENDING, startedAt := none } := rfl
  rw [h0] at hn1
  have hnext_eq : nextStep =
      { level := 2, approverRoles := ["DIRECTOR"], requiredApprovers := 1
        approvals := [], status := StepStatus.PENDING, startedAt := none } :=
    (Option.some_inj.mp hn1).symm
  subst hnext_eq
  exact ⟨flow1, hok, hcl, hst, hget0, hn2⟩

open ApprovalFlowService in
/-- C8: in every reachable flow, every step strictly before the current level
is `APPROVED`, every step strictly after it is `PENDING` with an empty
approvals list, and the step at the current level is never `SKIPPED` (it is
pending, approved, or rejected, mirroring the flow status). -/
theorem C8_level_monotonicity (flow : ApprovalFlow) (h : FlowReachable flow) :
    ∀ i step, flow.steps.get? i = some step →
      (i + 1 < flow.currentLevel → step.status = StepStatus.APPROVED) ∧
      (flow.currentLevel < i + 1 →
        step.status = StepStatus.PENDING ∧ step.approvals = []) ∧
      (i + 1 = flow.currentLevel → step.status ≠ StepStatus.SKIPPED) := by
  have inv := flowInv_of_reachable h
  intro i step hget
  refine ⟨inv.step_before i step hget, inv.step_after i step hget, fun hieq => ?_⟩
  obtain ⟨hP, hA, hR⟩ := inv.step_current i step hget hieq
  cases hst : flow.status with
  | PENDING => rw [hP hst]; simp
  | APPROVED => rw [hA hst]; simp
  | REJECTED => rw [hR hst]; simp

open ApprovalFlowService in
/-- Witness for C8 on the freshly created sample two-level flow at step
index 1 (a step after the current level): it is pending with no approvals. -/
theorem C8_witness :
    (mkFlow sampleRuleTwoLevel sampleExpense 0).steps.get? 1 = some
      { level := 2, approverRoles := ["DIRECTOR"], requiredApprovers := 1
        approvals := [], status := StepStatus.PENDING, startedAt := none } ∧
    ({ level := 2, approverRoles := ["DIRECTOR"], requiredApprovers := 1
       approvals := [], status := StepStatus.PENDING
       startedAt := none } : ApprovalStep).status = StepStatus.PENDING ∧
    ({ level := 2, approverRoles := ["DIRECTOR"], requiredApprovers := 1
       approvals := [], status := StepStatus.PENDING
       startedAt := none } : ApprovalStep).approvals = [] := by
  have h := C8_level_monotonicity (mkFlow sampleRuleTwoLevel sampleExpense 0)
    (FlowReachable.create sampleRuleTwoLevel sampleExpense 0) 1
    { level := 2, approverRoles := ["DIRECTOR"], requiredApprovers := 1
      approvals := [], status := StepStatus.PENDING, startedAt := none } rfl
  exact ⟨rfl, (h.2.1 (by decide)).1, (h.2.1 (by decide)).2⟩

open ApprovalFlowService in
/-- Counterexample to C7 as stated: a reachable flow built from a rule with
an empty approval-level list has every step vacuously `APPROVED`, yet its
status is `PENDING`, not `APPROVED`. -/
theorem C7_counterexample :
    FlowReachable (mkFlow sampleRuleNoLevels sampleExpense 0) ∧
    (∀ step ∈ (mkFlow sampleRuleNoLevels sampleExpense 0).steps,
      step.status = StepStatus.APPROVED) ∧
    (mkFlow sampleRuleNoLevels sampleExpense 0).status ≠ FlowStatus.APPROVED := by
  refine ⟨FlowReachable.create _ _ _, ?_, by simp [mkFlow]⟩
  intro step hstep
  simp [mkFlow, sampleRuleNoLevels] at hstep

open ApprovalFlowService in
/-- C7 amended: in every reachable flow, the status is `APPROVED` iff the
steps list is nonempty and every step is `APPROVED`; `REJECTED` iff some step
is `REJECTED`; and `PENDING` otherwise (in particular a flow with an empty
steps list stays `PENDING` although "every step approved" holds vacuously). -/
theorem C7_status_characterization (flow : ApprovalFlow) (h : FlowReachable flow) :
    (flow.status = FlowStatus.APPROVED ↔
      flow.steps ≠ [] ∧ ∀ step ∈ flow.steps, step.status = StepStatus.APPROVED) ∧
    (flow.status = FlowStatus.REJECTED ↔
      ∃ step ∈ flow.steps, step.status = StepStatus.REJECTED) ∧
    (flow.status = FlowStatus.PENDING ↔
      ¬(flow.steps ≠ [] ∧ ∀ step ∈ flow.steps, step.status = StepStatus.APPROVED) ∧
      ¬∃ step ∈ flow.steps, step.status = StepStatus.REJECTED) := by
  have inv := flowInv_of_reachable h
  -- the current step, available whenever some step exists
  have hcur : 0 < flow.totalLevels → ∃ s, flow.steps.get?
      (flow.currentLevel - 1) = some s ∧ flow.currentLevel - 1 + 1 = flow.currentLevel := by
    intro hT
    have hclT : flow.currentLevel ≤ flow.totalLevels := by
      have := inv.current_le
      rwa [max_eq_right hT] at this
    have hone := inv.one_le_current
    have hidx_lt : flow.currentLevel - 1 < flow.steps.length := by
      rw [inv.steps_length]; omega
    exact ⟨_, List.get?_eq_get hidx_lt, by omega⟩
  have hTpos_of_ne : flow.steps ≠ [] → 0 < flow.totalLevels := by
    intro hne
    rw [← inv.steps_length]
    exact List.length_pos.mpr hne
  have hA : flow.status = FlowStatus.APPROVED ↔
      flow.steps ≠ [] ∧ ∀ step ∈ flow.steps, step.status = StepStatus.APPROVED := by
    constructor
    · intro hap
      have hT : 0 < flow.totalLevels := inv.pos_of_resolved (by rw [hap]; simp)
      have hclT := inv.current_eq_of_approved hap
      refine ⟨by rw [← List.length_pos, inv.steps_length]; exact hT, ?_⟩
      intro step hmem
      obtain ⟨i, hget⟩ := List.mem_iff_get?.mp hmem
      have hi_lt : i < flow.steps.length := by
        rw [List.get?_eq_some] at hget; exact hget.1
      rcases Nat.lt_or_ge (i + 1) flow.currentLevel with hlt | hge
      · exact inv.step_before i step hget hlt
      · have hieq : i + 1 = flow.currentLevel := by
          rw [inv.steps_length] at hi_lt; omega
        exact (inv.step_current i step hget hieq).2.1 hap
    · rintro ⟨hne, hall⟩
      obtain ⟨s, hsget, hsidx⟩ := hcur (hTpos_of_ne hne)
      have hsmem : s ∈ flow.steps := List.get?_mem hsget
      have hsap := hall s hsmem
      cases hst : flow.status with
      | PENDING =>
        have := (inv.step_current _ _ hsget hsidx).1 hst
        rw [hsap] at this; exact absurd this (by simp)
      | APPROVED => rfl
      | REJECTED =>
        have := (inv.step_current _ _ hsget hsidx).2.2 hst
        rw [hsap] at this; exact absurd this (by simp)
  have hR : flow.status = FlowStatus.REJECTED ↔
      ∃ step ∈ flow.steps, step.status = StepStatus.REJECTED := by
    constructor
    · intro hrj
      have hT : 0 < flow.totalLevels := inv.pos_of_resolved (by rw [hrj]; simp)
      obtain ⟨s, hsget, hsidx⟩ := hcur hT
      exact ⟨s, List.get?_mem hsget, (inv.step_current _ _ hsget hsidx).2.2 hrj⟩
    · rintro ⟨s, hmem, hrj⟩
      obtain ⟨i, hget⟩ := List.mem_iff_get?.mp hmem
      cases hst : flow.status with
      | REJECTED => rfl
      | PENDING =>
        rcases Nat.lt_trichotomy (i + 1) flow.currentLevel with hlt | heq | hgt
        · have := inv.step_before i s hget hlt
          rw [hrj] at this; exact absurd this (by simp)
        · have := (inv.step_current i s hget heq).1 hst
          rw [hrj] at this; exact absurd this (by simp)
        · have := (inv.step_after i s hget hgt).1
          rw [hrj] at this; exact absurd this (by simp)
      | APPROVED =>
        rcases Nat.lt_trichotomy (i + 1) flow.currentLevel with hlt | heq | hgt
        · have := inv.step_before i s hget hlt
          rw [hrj] at this; exact absurd this (by simp)
        · have := (inv.step_current i s hget heq).2.1 hst
          rw [hrj] at this; exact absurd this (by simp)
        · have := (inv.step_after i s hget hgt).1
          rw [hrj] at this; exact absurd this (by simp)
  refine ⟨hA, hR, ?_, ?_⟩
  · intro hpd
    constructor
    · intro hand
      have := hA.mpr hand
      rw [hpd] at this; exact absurd this (by simp)
    · intro hex
      have := hR.mpr hex
      rw [hpd] at this; exact absurd this (by simp)
  · rintro ⟨h1, h2⟩
    cases hst : flow.status with
    | PENDING => rfl
    | APPROVED => exact absurd (hA.mp hst) h1
    | REJECTED => exact absurd (hR.mp hst) h2

open ApprovalFlowService in
/-- Witness for the amended C7 on the freshly created sample two-level flow:
its `PENDING` status is equivalent to the absence of both resolution
conditions. -/
theorem C7_witness :
    ((mkFlow sampleRuleTwoLevel sampleExpense 0).status = FlowStatus.PENDING ↔
      ¬((mkFlow sampleRuleTwoLevel sampleExpense 0).steps ≠ [] ∧
        ∀ step ∈ (mkFlow sampleRuleTwoLevel sampleExpense 0).steps,
          step.status = StepStatus.APPROVED) ∧
      ¬∃ step ∈ (mkFlow sampleRuleTwoLevel sampleExpense 0).steps,
        step.status = StepStatus.REJECTED) :=
  (C7_status_characterization (mkFlow sampleRuleTwoLevel sampleExpense 0)
    (FlowReachable.create sampleRuleTwoLevel sampleExpense 0)).2.2

/-- Counterexample to C1 as stated: with no rules, submitting the sample
draft expense fails with `NoMatchingRule`, yet the stored expense has been
switched to `PENDING` and stamped with a submission timestamp — the failed
operation did not leave the state as it was. -/
theorem C1_counterexample :
    (ExpenseService.submitExpense
      { rules := [], flows := [], expenses := [sampleExpense] } "exp-1" 5).1
      = Except.error (ExpenseService.ExpenseError.flowFailure
          ApprovalFlowService.FlowError.NoMatchingRule) ∧
    ExpenseService.getExpense
      (ExpenseService.submitExpense
        { rules := [], flows := [], expenses := [sampleExpense] } "exp-1" 5).2.expenses
      "exp-1"
      = some { sampleExpense with
          status := ExpenseStatus.PENDING, submittedAt := some 5 } ∧
    sampleExpense.status = ExpenseStatus.DRAFT ∧
    sampleExpense.submittedAt = none := by
  exact ⟨rfl, rfl, rfl, rfl⟩

/-- Rule evaluation reads only the expense's `amount` and `category`, so the
status/timestamp mutation that `submitExpense` applies before consulting the
rule engine does not change which rule matches. -/
theorem findMatchingRule_status_irrel (rules : List ApprovalRule) (expense : Expense)
    (st1 : ExpenseStatus) (sub1 : Option Nat) :
    ApprovalRuleEngine.findMatchingRule rules
      { expense with status := st1, submittedAt := sub1 }
      = ApprovalRuleEngine.findMatchingRule rules expense := rfl

/-- C1 amended: a `submitExpense` call on a stored draft expense that matches
no active rule fails with `NoMatchingRule`, but — because the source mutates
the expense before calling `createApprovalFlow` — the post-call state differs
from the pre-call state in exactly one way: that expense's status is
`PENDING` and its submission timestamp is set. Rules, flows and all other
expense fields are untouched. -/
theorem C1_submit_no_rule_partial_mutation
    (st : SystemState) (expenseId : String) (expense : Expense) (now : Nat)
    (hfound : ExpenseService.getExpense st.expenses expenseId = some expense)
    (hdraft : expense.status = ExpenseStatus.DRAFT)
    (hnomatch : ApprovalRuleEngine.findMatchingRule st.rules expense = none) :
    ExpenseService.submitExpense st expenseId now =
      (Except.error (ExpenseService.ExpenseError.flowFailure
        ApprovalFlowService.FlowError.NoMatchingRule),
       { st with
         expenses :=
           ExpenseService.setExpense st.expenses
             { expense with status := ExpenseStatus.PENDING, submittedAt := some now } }) := by
  have hnomatch1 : ApprovalRuleEngine.findMatchingRule st.rules
      { expense with status := ExpenseStatus.PENDING, submittedAt := some now } = none := by
    rw [findMatchingRule_status_irrel]
    exact hnomatch
  simp only [ExpenseService.submitExpense, hfound, hdraft, if_true,
    ApprovalFlowService.createApprovalFlow, hnomatch1]

/-- Witness for the amended C1 at a concrete input: a one-expense state with
an empty rule set. -/
theorem C1_witness :
    ExpenseService.submitExpense
      { rules := [], flows := [], expenses := [sampleExpense] } "exp-1" 5 =
      (Except.error (ExpenseService.ExpenseError.flowFailure
        ApprovalFlowService.FlowError.NoMatchingRule),
       { rules := [], flows := []
         expenses := [{ sampleExpense with
           status := ExpenseStatus.PENDING, submittedAt := some 5 }] }) :=
  C1_submit_no_rule_partial_mutation
    { rules := [], flows := [], expenses := [sampleExpense] }
    "exp-1" sampleExpense 5 rfl rfl rfl

/-- C2 exhibits a bug: a first manager approval on a step requiring two
approvers is validated while the flow's current level is 1 and leaves the
flow pending at level 1, yet the appended expense approval record carries
`approverLevel = 0` (the source computes `currentLevel - 1` whenever the
flow did not terminally approve on the same call, which also mis-records
every rejection). Levels are 1-based, so level 0 does not exist. -/
theorem C2_approverLevel_zero_on_non_advancing_approval :
    (ApprovalFlowService.mkFlow sampleRuleTwoApprovers sampleExpense 0).currentLevel = 1 ∧
    (ExpenseService.processExpenseApproval
      { rules := [sampleRuleTwoApprovers]
        flows := [ApprovalFlowService.mkFlow sampleRuleTwoApprovers sampleExpense 0]
        expenses := [{ sampleExpense with status := ExpenseStatus.PENDING }] }
      "exp-1" "mgr-1" "Manager One" "MANAGER" ApprovalAction.APPROVED none 7).1
      = Except.ok
        { sampleExpense with
          status := ExpenseStatus.PENDING
          approvalHistory :=
            [{ approverId := "mgr-1", approverName := "Manager One"
               approverLevel := 0, action := ApprovalAction.APPROVED
               timestamp := 7, comments := none }] } := by
  exact ⟨rfl, rfl⟩

namespace ApprovalFlowService

theorem find?_map_replace (flows : List ApprovalFlow) (f : ApprovalFlow)
    (hany : flows.any (fun g => g.id == f.id) = true) :
    (flows.map (fun g => if g.id == f.id then f else g)).find?
      (fun g => g.id == f.id) = some f := by
  induction flows with
  | nil => simp at hany
  | cons e rest ih =>
    simp only [List.any_cons, Bool.or_eq_true] at hany
    by_cases he : (e.id == f.id) = true
    · simp only [List.map_cons, he, if_true]
      rw [List.find?_cons_of_pos]
      simp
    · simp only [List.map_cons, he, if_false]
      rw [List.find?_cons_of_neg _ (by simp [he])]
      have hrest : rest.any (fun g => g.id == f.id) = true := by
        rcases hany with h | h
        · exact absurd h he
        · exact h
      exact ih hrest

/-- A flow just written by `setFlow` is what `getFlow` returns for its id. -/
theorem getFlow_setFlow (flows : List ApprovalFlow) (f : ApprovalFlow) :
    getFlow (setFlow flows f) f.id = some f := by
  unfold setFlow
  split
  case isTrue hany =>
    exact find?_map_replace flows f hany
  case isFalse hany =>
    unfold getFlow
    have hnone : flows.find? (fun g => g.id == f.id) = none := by
      rw [List.find?_eq_none]
      intro x hx hbeq
      exact hany (List.any_eq_true.mpr ⟨x, hx, hbeq⟩)
    rw [List.find?_append, hnone]
    simp

end ApprovalFlowService

/-- C9: once a flow has been created, a later `updateRule` or
`deactivateRule` on any rule (in particular the matched one) leaves the
stored flows untouched: the flow looked up afterwards is byte-for-byte the
created one, so its `totalLevels` and every step's `level`, `approverRoles`
and `requiredApprovers` are unchanged. The engine's `updateRule` writes only
the `rules` field and stores a freshly merged rule object, never reaching
into flow records. -/
theorem C9_rule_updates_leave_flows_unchanged
    (st : SystemState) (expense : Expense) (now : Nat)
    (flow : ApprovalFlow) (flows1 : List ApprovalFlow)
    (hcreate : ApprovalFlowService.createApprovalFlow st.rules st.flows expense now
      = Except.ok (flow, flows1))
    (ruleId : String) (updates : ApprovalRuleEngine.RuleUpdate) :
    (SystemState.updateRule { st with flows := flows1 } ruleId updates).2.flows = flows1 ∧
    (SystemState.deactivateRule { st with flows := flows1 } ruleId).2.flows = flows1 ∧
    ApprovalFlowService.getFlow
      (SystemState.updateRule { st with flows := flows1 } ruleId updates).2.flows flow.id
      = some flow ∧
    ApprovalFlowService.getFlow
      (SystemState.deactivateRule { st with flows := flows1 } ruleId).2.flows flow.id
      = some flow ∧
    (ApprovalFlowService.getFlow
      (SystemState.updateRule { st with flows := flows1 } ruleId updates).2.flows
      flow.id).map
        (fun f => (f.totalLevels, f.steps.map
          (fun s => (s.level, s.approverRoles, s.requiredApprovers))))
      = some (flow.totalLevels, flow.steps.map
          (fun s => (s.level, s.approverRoles, s.requiredApprovers))) := by
  have hget : ApprovalFlowService.getFlow flows1 flow.id = some flow := by
    unfold ApprovalFlowService.createApprovalFlow at hcreate
    split at hcreate
    · exact absurd hcreate (by simp)
    · simp only [Except.ok.injEq, Prod.mk.injEq] at hcreate
      obtain ⟨hflow, hflows⟩ := hcreate
      rw [← hflows, ← hflow]
      exact ApprovalFlowService.getFlow_setFlow st.flows _
  exact ⟨rfl, rfl, hget, hget, congrArg (Option.map _) hget⟩

/-- Witness for C9: create a flow from the sample two-level rule, then
deactivate that rule; the stored flow is unchanged. -/
theorem C9_witness :
    ∃ flow flows1,
      ApprovalFlowService.createApprovalFlow [sampleRuleTwoLevel] [] sampleExpense 0
        = Except.ok (flow, flows1) ∧
      (SystemState.deactivateRule
        { rules := [sampleRuleTwoLevel], flows := flows1, expenses := [] }
        "rule-2").2.flows = flows1 ∧
      ApprovalFlowService.getFlow
        (SystemState.deactivateRule
          { rules := [sampleRuleTwoLevel], flows := flows1, expenses := [] }
          "rule-2").2.flows flow.id = some flow := by
  have h := C9_rule_updates_leave_flows_unchanged
    { rules := [sampleRuleTwoLevel], flows := [], expenses := [] }
    sampleExpense 0
    (ApprovalFlowService.mkFlow sampleRuleTwoLevel sampleExpense 0)
    [ApprovalFlowService.mkFlow sampleRuleTwoLevel sampleExpense 0]
    rfl "rule-2" { active := some false }
  exact ⟨ApprovalFlowService.mkFlow sampleRuleTwoLevel sampleExpense 0,
    [ApprovalFlowService.mkFlow sampleRuleTwoLevel sampleExpense 0],
    rfl, h.2.1, h.2.2.2.1⟩

namespace ApprovalRuleEngine

theorem find?_filter {α : Type} (l : List α) (p q : α → Bool) :
    (l.filter p).find? q = l.find? (fun x => p x && q x) := by
  induction l with
  | nil => rfl
  | cons x xs ih =>
    by_cases hp : p x
    · by_cases hq : q x
      · simp [List.filter_cons, hp, List.find?_cons, hq]
      · simp [List.filter_cons, hp, List.find?_cons, hq, ih]
    · simp [List.filter_cons, hp, List.find?_cons, ih]

theorem mem_insertByPriority (r a : ApprovalRule) :
    ∀ S : List ApprovalRule, a ∈ insertByPriority r S ↔ a = r ∨ a ∈ S := by
  intro S
  induction S with
  | nil => simp [insertByPriority]
  | cons x xs ih =>
    unfold insertByPriority
    by_cases hgt : x.priority > r.priority
    · rw [if_pos hgt]
      simp only [List.mem_cons, ih]
      tauto
    · rw [if_neg hgt]
      simp only [List.mem_cons]

theorem insertByPriority_pairwise (r : ApprovalRule) :
    ∀ S : List ApprovalRule, S.Pairwise (fun a c => c.priority ≤ a.priority) →
    (insertByPriority r S).Pairwise (fun a c => c.priority ≤ a.priority) := by
  intro S
  induction S with
  | nil =>
    intro _
    simp [insertByPriority]
  | cons x xs ih =>
    intro hp
    obtain ⟨hx_le, hxs⟩ := List.pairwise_cons.mp hp
    unfold insertByPriority
    by_cases hgt : x.priority > r.priority
    · rw [if_pos hgt]
      refine List.pairwise_cons.mpr ⟨?_, ih hxs⟩
      intro y hy
      rcases (mem_insertByPriority r y xs).mp hy with h | h
      · rw [h]; exact le_of_lt hgt
      · exact hx_le y h
    · rw [if_neg hgt]
      refine List.pairwise_cons.mpr ⟨?_, hp⟩
      intro y hy
      rcases List.mem_cons.mp hy with h | h
      · rw [h]; exact le_of_not_lt hgt
      · exact (hx_le y h).trans (le_of_not_lt hgt)

theorem sortByPriority_pairwise (rules : List ApprovalRule) :
    (sortByPriority rules).Pairwise (fun a c => c.priority ≤ a.priority) := by
  induction rules with
  | nil => simp [sortByPriority]
  | cons r rest ih => exact insertByPriority_pairwise r _ ih

theorem find?_insertByPriority_none (r : ApprovalRule) (q : ApprovalRule → Bool) :
    ∀ S : List ApprovalRule, S.find? q = none →
    (insertByPriority r S).find? q = if q r = true then some r else none := by
  intro S
  induction S with
  | nil =>
    intro _
    by_cases hq : q r = true
    · simp [insertByPriority, List.find?_cons, hq]
    · simp [insertByPriority, List.find?_cons, hq]
  | cons x xs ih =>
    intro hnone
    rw [List.find?_eq_none] at hnone
    have hqx : ¬ q x = true := hnone x (by simp)
    have hxs : xs.find? q = none :=
      List.find?_eq_none.mpr (fun y hy => hnone y (by simp [hy]))
    unfold insertByPriority
    by_cases hgt : x.priority > r.priority
    · rw [if_pos hgt, List.find?_cons_of_neg _ hqx]
      exact ih hxs
    · rw [if_neg hgt]
      by_cases hq : q r = true
      · rw [List.find?_cons_of_pos _ hq, if_pos hq]
      · rw [List.find?_cons_of_neg _ hq, if_neg hq, List.find?_cons_of_neg _ hqx]
        exact hxs

theorem find?_insertByPriority_some (r b : ApprovalRule) (q : ApprovalRule → Bool) :
    ∀ S : List ApprovalRule, S.Pairwise (fun a c => c.priority ≤ a.priority) →
    S.find? q = some b →
    (insertByPriority r S).find? q =
      if q r = true ∧ b.priority ≤ r.priority then some r else some b := by
  intro S
  induction S with
  | nil =>
    intro _ h
    simp [List.find?] at h
  | cons x xs ih =>
    intro hp hsome
    obtain ⟨hx_le, hxs_p⟩ := List.pairwise_cons.mp hp
    unfold insertByPriority
    by_cases hgt : x.priority > r.priority
    · rw [if_pos hgt]
      by_cases hqx : q x = true
      · rw [List.find?_cons_of_pos _ hqx] at hsome
        have hbx : b = x := (Option.some_inj.mp hsome).symm
        rw [List.find?_cons_of_pos _ hqx, if_neg ?hcond, hbx]
        case hcond =>
          rintro ⟨_, hle⟩
          rw [hbx] at hle
          exact absurd hle (not_le.mpr hgt)
      · rw [List.find?_cons_of_neg _ hqx] at hsome
        rw [List.find?_cons_of_neg _ hqx]
        exact ih hxs_p hsome
    · have hxr : x.priority ≤ r.priority := le_of_not_lt hgt
      have hb_le : b.priority ≤ x.priority := by
        rcases List.mem_cons.mp (List.mem_of_find?_eq_some hsome) with hbx | hbxs
        · rw [hbx]
        · exact hx_le b hbxs
      rw [if_neg hgt]
      by_cases hqr : q r = true
      · rw [List.find?_cons_of_pos _ hqr, if_pos ⟨hqr, hb_le.trans hxr⟩]
      · rw [List.find?_cons_of_neg _ hqr, if_neg (fun hc => hqr hc.1)]
        exact hsome

end ApprovalRuleEngine


namespace ApprovalRuleEngine

theorem active_and_eval_iff (r : ApprovalRule) (expense : Expense) :
    (r.active && evaluateRule r expense) = true ↔
    r.active = true ∧ evaluateRule r expense = true := by
  simp

/-- The source-side engine refines the spec-side description: filtering the
stably priority-sorted rules to the active ones and taking the first whose
conditions all hold selects exactly the earliest-inserted active matching
rule of maximal priority. -/
theorem findMatchingRule_eq_specFirstMatch (rules : List ApprovalRule) (expense : Expense) :
    findMatchingRule (constructorRules rules) expense = specFirstMatch rules expense := by
  have hfuse : ∀ S : List ApprovalRule, findMatchingRule S expense
      = S.find? (fun x => x.active && evaluateRule x expense) := by
    intro S
    exact find?_filter S _ _
  induction rules with
  | nil => rfl
  | cons r rest ih =>
    rw [hfuse]
    show (insertByPriority r (sortByPriority rest)).find?
      (fun x => x.active && evaluateRule x expense) = _
    have ih2 : (sortByPriority rest).find? (fun x => x.active && evaluateRule x expense)
        = specFirstMatch rest expense := by
      rw [← hfuse]
      exact ih
    cases hcase : specFirstMatch rest expense with
    | none =>
      rw [find?_insertByPriority_none r _ _ (ih2.trans hcase)]
      simp only [specFirstMatch, hcase]
      by_cases h1 : r.active = true ∧ evaluateRule r expense = true
      · rw [if_pos ((active_and_eval_iff r expense).mpr h1), if_pos h1]
      · rw [if_neg (fun hc => h1 ((active_and_eval_iff r expense).mp hc)), if_neg h1]
    | some b =>
      rw [find?_insertByPriority_some r b _ _ (sortByPriority_pairwise rest)
        (ih2.trans hcase)]
      simp only [specFirstMatch, hcase]
      by_cases h1 : (r.active = true ∧ evaluateRule r expense = true) ∧
        b.priority ≤ r.priority
      · rw [if_pos ⟨(active_and_eval_iff r expense).mpr h1.1, h1.2⟩, if_pos h1]
      · rw [if_neg ?hc, if_neg h1]
        case hc =>
          rintro ⟨hq, hle⟩
          exact h1 ⟨(active_and_eval_iff r expense).mp hq, hle⟩

theorem specFirstMatch_eq_some (rules : List ApprovalRule) (expense : Expense) :
    ∀ r, specFirstMatch rules expense = some r →
    r ∈ rules ∧ r.active = true ∧ evaluateRule r expense = true := by
  induction rules with
  | nil =>
    intro r h
    exact absurd h (by simp [specFirstMatch])
  | cons x rest ih =>
    intro r h
    simp only [specFirstMatch] at h
    cases hcase : specFirstMatch rest expense with
    | none =>
      rw [hcase] at h
      dsimp only at h
      by_cases hcond : x.active = true ∧ evaluateRule x expense = true
      · rw [if_pos hcond] at h
        have hxr : x = r := Option.some_inj.mp h
        rw [← hxr]
        exact ⟨List.mem_cons_self x rest, hcond.1, hcond.2⟩
      · rw [if_neg hcond] at h
        exact absurd h (by simp)
    | some b =>
      rw [hcase] at h
      dsimp only at h
      by_cases hcond : (x.active = true ∧ evaluateRule x expense = true) ∧
        b.priority ≤ x.priority
      · rw [if_pos hcond] at h
        have hxr : x = r := Option.some_inj.mp h
        rw [← hxr]
        exact ⟨List.mem_cons_self x rest, hcond.1.1, hcond.1.2⟩
      · rw [if_neg hcond] at h
        have hbr : b = r := Option.some_inj.mp h
        obtain ⟨hmem, hact, heval⟩ := ih b hcase
        rw [← hbr]
        exact ⟨List.mem_cons_of_mem x hmem, hact, heval⟩

theorem specFirstMatch_priority_ge (rules : List ApprovalRule) (expense : Expense)
    (b : ApprovalRule) (hact : b.active = true)
    (heval : evaluateRule b expense = true) :
    b ∈ rules →
    ∃ r, specFirstMatch rules expense = some r ∧ b.priority ≤ r.priority := by
  induction rules with
  | nil =>
    intro hmem
    exact absurd hmem (by simp)
  | cons x rest ih =>
    intro hmem
    rcases List.mem_cons.mp hmem with hbx | hbrest
    · cases hcase : specFirstMatch rest expense with
      | none =>
        refine ⟨x, ?_, by rw [hbx]⟩
        simp only [specFirstMatch, hcase]
        rw [if_pos ⟨by rw [← hbx]; exact hact, by rw [← hbx]; exact heval⟩]
      | some c =>
        by_cases hle : c.priority ≤ x.priority
        · refine ⟨x, ?_, by rw [hbx]⟩
          simp only [specFirstMatch, hcase]
          rw [if_pos ⟨⟨by rw [← hbx]; exact hact, by rw [← hbx]; exact heval⟩, hle⟩]
        · refine ⟨c, ?_, ?_⟩
          · simp only [specFirstMatch, hcase]
            rw [if_neg (fun hc => hle hc.2)]
          · rw [hbx]
            exact le_of_lt (not_le.mp hle)
    · obtain ⟨c, hcspec, hble⟩ := ih hbrest
      by_cases hcond : (x.active = true ∧ evaluateRule x expense = true) ∧
        c.priority ≤ x.priority
      · refine ⟨x, ?_, hble.trans hcond.2⟩
        simp only [specFirstMatch, hcspec]
        rw [if_pos hcond]
      · refine ⟨c, ?_, hble⟩
        simp only [specFirstMatch, hcspec]
        rw [if_neg hcond]

end ApprovalRuleEngine

/-- Counterexample to C3's "for any two active rules A and B both matching
the same expense with priority(A) > priority(B), it returns A": with a third
active matching rule C of even higher priority in the engine, the pair
(A, B) satisfies every hypothesis of that sentence yet `findMatchingRule`
returns C, not A. -/
theorem C3_counterexample :
    sampleRuleA ∈ [sampleRuleC, sampleRuleA, sampleRuleB] ∧
    sampleRuleB ∈ [sampleRuleC, sampleRuleA, sampleRuleB] ∧
    sampleRuleA.active = true ∧
    sampleRuleB.active = true ∧
    ApprovalRuleEngine.evaluateRule sampleRuleA sampleExpense = true ∧
    ApprovalRuleEngine.evaluateRule sampleRuleB sampleExpense = true ∧
    sampleRuleB.priority < sampleRuleA.priority ∧
    ApprovalRuleEngine.findMatchingRule
      (ApprovalRuleEngine.constructorRules [sampleRuleC, sampleRuleA, sampleRuleB])
      sampleExpense ≠ some sampleRuleA := by
  refine ⟨by simp, by simp, rfl, rfl, rfl, rfl, by decide, ?_⟩
  intro hcontra
  have hC : ApprovalRuleEngine.findMatchingRule
      (ApprovalRuleEngine.constructorRules [sampleRuleC, sampleRuleA, sampleRuleB])
      sampleExpense = some sampleRuleC := rfl
  rw [hC] at hcontra
  have hpri := congrArg ApprovalRule.priority (Option.some_inj.mp hcontra)
  simp [sampleRuleC, sampleRuleA] at hpri

/-- C3 amended: `findMatchingRule` over the engine's stably priority-sorted
rule list equals the spec-side first-match description (earliest-inserted
active matching rule of maximal priority, none when no active rule matches);
consequently, for any two active rules A and B both matching the expense
with priority(A) > priority(B), the returned rule exists, has priority at
least A's, and is never B. -/
theorem C3_first_match_priority_semantics (rules : List ApprovalRule) (expense : Expense) :
    ApprovalRuleEngine.findMatchingRule
      (ApprovalRuleEngine.constructorRules rules) expense
      = specFirstMatch rules expense ∧
    (∀ A B, A ∈ rules → B ∈ rules → A.active = true → B.active = true →
      ApprovalRuleEngine.evaluateRule A expense = true →
      ApprovalRuleEngine.evaluateRule B expense = true →
      B.priority < A.priority →
      ∃ r, ApprovalRuleEngine.findMatchingRule
          (ApprovalRuleEngine.constructorRules rules) expense = some r ∧
        r ∈ rules ∧ r.active = true ∧
        ApprovalRuleEngine.evaluateRule r expense = true ∧
        A.priority ≤ r.priority ∧ r ≠ B) := by
  have heq := ApprovalRuleEngine.findMatchingRule_eq_specFirstMatch rules expense
  refine ⟨heq, ?_⟩
  intro A B hAmem _ hAact _ hAeval _ hBA
  obtain ⟨r, hrspec, hAle⟩ :=
    ApprovalRuleEngine.specFirstMatch_priority_ge rules expense A hAact hAeval hAmem
  obtain ⟨hrmem, hract, hreval⟩ :=
    ApprovalRuleEngine.specFirstMatch_eq_some rules expense r hrspec
  refine ⟨r, heq.trans hrspec, hrmem, hract, hreval, hAle, ?_⟩
  intro hrB
  rw [hrB] at hAle
  exact absurd (lt_of_lt_of_le hBA hAle) (lt_irrefl _)

/-- Witness for the amended C3 on the three sample rules (priorities 3, 2, 1,
all active and matching): the returned rule has priority at least
`sampleRuleA`'s and is not `sampleRuleB`. -/
theorem C3_witness :
    ApprovalRuleEngine.findMatchingRule
      (ApprovalRuleEngine.constructorRules [sampleRuleC, sampleRuleA, sampleRuleB])
      sampleExpense
      = specFirstMatch [sampleRuleC, sampleRuleA, sampleRuleB] sampleExpense ∧
    ∃ r, ApprovalRuleEngine.findMatchingRule
        (ApprovalRuleEngine.constructorRules [sampleRuleC, sampleRuleA, sampleRuleB])
        sampleExpense = some r ∧
      r ∈ [sampleRuleC, sampleRuleA, sampleRuleB] ∧ r.active = true ∧
      ApprovalRuleEngine.evaluateRule r sampleExpense = true ∧
      sampleRuleA.priority ≤ r.priority ∧ r ≠ sampleRuleB := by
  have h := C3_first_match_priority_semantics
    [sampleRuleC, sampleRuleA, sampleRuleB] sampleExpense
  exact ⟨h.1, h.2 sampleRuleA sampleRuleB (by simp) (by simp) rfl rfl rfl rfl (by decide)⟩
